import Mathlib

/-!
Verification of the LLM-council orchestration core (`scripts/council.py`,
`scripts/unified_client.py`, `scripts/worktree_manager.py`) against its
design specification.

The Python sources are shallowly embedded: pure functions become Lean
functions on `List Char` / `String` / `ℚ`; the outcomes of external effects
(LLM invocations, git subprocesses, stdin confirmation) are passed in as
explicit arguments, and effects on the workspace registry are returned as
explicit state / action traces.
-/

namespace Council

/-! ## Ranking parser (`CouncilOrchestrator._parse_ranking_from_text`)

The source searches for the literal marker `"FINAL RANKING:"`, takes
`ranking_text.split("FINAL RANKING:")[1]`, and extracts every match of the
Python regex `\d+\.\s*(?:Response|Proposal)\s+[A-Z]` in order, keeping for
each match the sub-token matched by `(?:Response|Proposal)\s+[A-Z]`.
-/

/-- ASCII decimal digit: the `\d` class of the regex (the source's Unicode
digits beyond ASCII are not modelled). -/
def isDigitChar (c : Char) : Bool := '0' ≤ c && c ≤ '9'

/-- ASCII whitespace: the `\s` class of the regex (space, tab, newline,
carriage return, vertical tab, form feed). -/
def isSpaceChar (c : Char) : Bool :=
  c = ' ' || c = '\t' || c = '\n' || c = '\r' || c = Char.ofNat 11 || c = Char.ofNat 12

/-- Uppercase ASCII letter: the `[A-Z]` class of the regex. -/
def isUpperChar (c : Char) : Bool := 'A' ≤ c && c ≤ 'Z'

/-- Match the alternation `(?:Response|Proposal)` at the head of `s`,
returning the matched word together with the remaining input.
`Response` is tried first, as in the regex alternation; the two words
differ at their second character, so the order cannot matter. -/
def matchKindWord (s : List Char) : Option (List Char × List Char) :=
  if "Response".toList.isPrefixOf s then some ("Response".toList, s.drop 8)
  else if "Proposal".toList.isPrefixOf s then some ("Proposal".toList, s.drop 8)
  else none

/-- Attempt to match `\d+\.\s*(?:Response|Proposal)\s+[A-Z]` at the head of
`s`.  Every character class in the pattern is disjoint from the literal or
class that follows it, so Python's greedy backtracking matcher agrees with
this maximal-munch scan.  On success, return the token matched by the inner
`(?:Response|Proposal)\s+[A-Z]` (which is what the source re-extracts from
each full match via `re.search(...).group()`) and the input remaining after
the full match. -/
def matchRankItem (s : List Char) : Option (List Char × List Char) :=
  let ds := s.takeWhile isDigitChar
  let s1 := s.dropWhile isDigitChar
  if ds.isEmpty then none else
  match s1 with
  | '.' :: s2 =>
    let s3 := s2.dropWhile isSpaceChar
    match matchKindWord s3 with
    | some (kw, s4) =>
      let ws := s4.takeWhile isSpaceChar
      let s5 := s4.dropWhile isSpaceChar
      if ws.isEmpty then none
      else
        match s5 with
        | c :: s6 => if isUpperChar c then some (kw ++ ws ++ [c], s6) else none
        | [] => none
    | none => none
  | _ => none

/-- One step of `re.findall`: scan left to right; at each position try
`matchRankItem`; on a match emit its token and resume right after the full
match (matches are non-overlapping), otherwise advance one character.
The fuel argument only forces structural termination; each step consumes at
least one character, so `findRankItems` below never exhausts it. -/
def findRankItemsAux : Nat → List Char → List (List Char)
  | _, [] => []
  | 0, _ :: _ => []
  | fuel + 1, c :: rest =>
    match matchRankItem (c :: rest) with
    | some (tok, s) => tok :: findRankItemsAux fuel s
    | none => findRankItemsAux fuel rest

/-- All matches of the numbered-item pattern, in order of appearance:
`re.findall(r'\d+\.\s*(?:Response|Proposal)\s+[A-Z]', s)`, each reduced to
its `(?:Response|Proposal)\s+[A-Z]` token. -/
def findRankItems (s : List Char) : List (List Char) :=
  findRankItemsAux s.length s

/-- Does `sub` occur as a contiguous substring of `s`?  Models Python's
`sub in s` for a non-empty `sub`. -/
def containsSub (sub : List Char) : List Char → Bool
  | [] => sub.isEmpty
  | c :: rest => sub.isPrefixOf (c :: rest) || containsSub sub rest

/-- Helper of `pySplit`: scan for the next occurrence of `sep`, accumulating
the current segment in reverse.  The fuel argument only forces structural
termination and is never exhausted when instantiated with the input length,
since both branches consume at least one character. -/
def pySplitAux (sep : List Char) : Nat → List Char → List Char → List (List Char)
  | _, [], acc => [acc.reverse]
  | 0, s, acc => [acc.reverse ++ s]
  | fuel + 1, c :: rest, acc =>
    if sep.isPrefixOf (c :: rest) then
      acc.reverse :: pySplitAux sep fuel (rest.drop (sep.length - 1)) []
    else
      pySplitAux sep fuel rest (c :: acc)

/-- Python's `s.split(sep)` for a non-empty separator: splits on each
non-overlapping occurrence of `sep`, scanning left to right. -/
def pySplit (sep s : List Char) : List (List Char) :=
  pySplitAux sep s.length s []

/-- The literal marker searched for by the parser. -/
def rankingMarker : List Char := "FINAL RANKING:".toList

/-- `CouncilOrchestrator._parse_ranking_from_text`: if the marker is absent
return the empty list; otherwise scan `ranking_text.split("FINAL RANKING:")[1]`
(the segment after the first marker, up to the next occurrence of the marker
if any) for numbered ranking items. -/
def parseRankingFromText (rankingText : String) : List String :=
  let s := rankingText.toList
  if containsSub rankingMarker s then
    let parts := pySplit rankingMarker s
    if 2 ≤ parts.length then
      let rankingSection := parts.getD 1 []
      (findRankItems rankingSection).map (fun t => String.mk t)
    else []
  else []

/-- Everything after the first occurrence of `sub` in `s` (`none` when `sub`
does not occur). -/
def afterFirstSub (sub : List Char) : List Char → Option (List Char)
  | [] => if sub.isEmpty then some [] else none
  | c :: rest =>
    if sub.isPrefixOf (c :: rest) then some ((c :: rest).drop sub.length)
    else afterFirstSub sub rest

/-- The parser as the specification sentence reads it, scanning EVERYTHING
after the (first) marker.  This differs from the source, which scans only
the segment up to the next occurrence of the marker; the two are compared
in the C4 counterexample below. -/
def parseRankingClaimed (rankingText : String) : List String :=
  match afterFirstSub rankingMarker rankingText.toList with
  | some sec => (findRankItems sec).map (fun t => String.mk t)
  | none => []

/-! ## Rank aggregator (`CouncilOrchestrator.calculate_aggregate_rankings`)

The source builds an insertion-ordered dict `rank_scores` mapping each label
occurring in some rater's `parsed_ranking` to the list of scores it
received, averages each list into `avg_scores`, and stably sorts the items
descending by score.  Python dicts preserve insertion order and Python's
`sorted` is stable, so dicts are modelled as insertion-ordered association
lists and the sort as a stable insertion sort. -/

/-- One Stage-2 record: `{model, provider, ranking, parsed_ranking}`. -/
structure Stage2Result where
  model : String
  provider : String
  ranking : String
  parsed_ranking : List String
deriving DecidableEq, Repr

/-- `if label not in rank_scores: rank_scores[label] = []` followed by
`rank_scores[label].append(score)`: an existing key keeps its position and
gets the score appended; a new key is appended at the end. -/
def insertScore (d : List (String × List ℚ)) (label : String) (score : ℚ) :
    List (String × List ℚ) :=
  if d.any (fun e => e.1 = label) then
    d.map (fun e => if e.1 = label then (e.1, e.2 ++ [score]) else e)
  else d ++ [(label, [score])]

/-- The `rank_scores` dict after the two source loops: for every rater in
order and every label at 1-based position `rank` in that rater's
`parsed_ranking`, append the score `len(parsed) - rank + 1`. -/
def rankScores (stage2_results : List Stage2Result) : List (String × List ℚ) :=
  stage2_results.foldl (fun d result =>
    result.parsed_ranking.enum.foldl (fun d p =>
      insertScore d p.2 ((result.parsed_ranking.length : ℚ) - (p.1 + 1) + 1)) d) []

/-- The `avg_scores` dict: each label of `rank_scores`, in order, mapped to
`sum(scores) / len(scores) if scores else 0`. -/
def avgScores (rs : List (String × List ℚ)) : List (String × ℚ) :=
  rs.map (fun e => (e.1, if e.2.isEmpty then 0 else e.2.sum / e.2.length))

/-- Insert into a list sorted descending by score, after every element of
strictly greater score and before the first element of score less than or
equal.  Folding from the right reproduces Python's stable
`sorted(..., key=lambda x: x[1], reverse=True)`. -/
def insertByScoreDesc (x : String × ℚ) : List (String × ℚ) → List (String × ℚ)
  | [] => [x]
  | y :: l => if x.2 < y.2 then y :: insertByScoreDesc x l else x :: y :: l

/-- Stable descending sort by score. -/
def sortByScoreDesc (l : List (String × ℚ)) : List (String × ℚ) :=
  l.foldr insertByScoreDesc []

/-- `CouncilOrchestrator.calculate_aggregate_rankings`.  The
`label_to_model` argument is part of the source signature but, exactly as in
the source body, it is never consulted. -/
def calculate_aggregate_rankings (stage2_results : List Stage2Result)
    (label_to_model : List (String × String)) : List (String × ℚ) :=
  sortByScoreDesc (avgScores (rankScores stage2_results))

/-! ### Specification-side recomputation of the aggregate, used to state the
aggregator claims independently of the dict-folding implementation. -/

/-- All individual (label, score) contributions, raters in input order and
positions in sequence order: the label at 1-based position `p` of a parsed
sequence of length `k` contributes the score `k − p + 1`. -/
def scoreContributions (stage2_results : List Stage2Result) : List (String × ℚ) :=
  stage2_results.flatMap (fun r =>
    r.parsed_ranking.enum.map (fun p =>
      (p.2, ((r.parsed_ranking.length : ℚ) - (p.1 + 1) + 1))))

/-- Every label mentioned by some rater, with multiplicity, flattened in
rater order then position order; first occurrences in this list realise
"first appearance across the full set of per-rater sequences". -/
def mentionedLabels (stage2_results : List Stage2Result) : List String :=
  (scoreContributions stage2_results).map Prod.fst

/-- The scores a label received across all raters, in contribution order. -/
def scoresFor (stage2_results : List Stage2Result) (label : String) : List ℚ :=
  ((scoreContributions stage2_results).filter (fun p => p.1 = label)).map Prod.snd

/-- First-occurrence deduplication, with an explicit seen-set accumulator. -/
def dedupFirstAux : List String → List String → List String
  | [], _ => []
  | x :: l, seen =>
    if x ∈ seen then dedupFirstAux l seen else x :: dedupFirstAux l (x :: seen)

/-- The elements of a list in order of first appearance, each once. -/
def dedupFirst (l : List String) : List String := dedupFirstAux l []

/-- Association-list access to the scores of a label (empty when absent). -/
def lookupScores (d : List (String × List ℚ)) (label : String) : List ℚ :=
  match d.lookup label with
  | some scores => scores
  | none => []

/-- Processing a flat list of (label, score) contributions into the scores
dict; `rankScores` is proved below to factor through this. -/
def processContributions (d : List (String × List ℚ)) (ps : List (String × ℚ)) :
    List (String × List ℚ) :=
  ps.foldl (fun d p => insertScore d p.1 p.2) d

/-! ## Member invocation client (`unified_client.py`) -/

/-- A configured council member record: `{provider, model, full_name}`. -/
structure Member where
  provider : String
  model : String
  full_name : String
deriving DecidableEq, Repr

/-- A successful invocation response (the source dict's `content` key). -/
structure Response where
  content : String
deriving DecidableEq, Repr

/-- One entry of the list returned by `query_members_parallel`. -/
structure QueryResult where
  member_index : Nat
  model : String
  provider : String
  full_name : String
  response : Response
deriving DecidableEq, Repr

/-- `UnifiedLLMClient.query_members_parallel`, with the outcome of the
`asyncio.gather` fan-out supplied explicitly: `responses[i]` is member
`i`'s outcome, `none` when the invocation failed.  `gather` returns results
in task order, which the zip mirrors; the source keeps, in order, one entry
per responding member, tagged with its original index, and drops failures. -/
def query_members_parallel (members : List Member)
    (responses : List (Option Response)) : List QueryResult :=
  ((members.zip responses).enum).filterMap (fun x =>
    match x.2.2 with
    | some response =>
        some ⟨x.1, x.2.1.model, x.2.1.provider, x.2.1.full_name, response⟩
    | none => none)

/-! ## Orchestrator stages (`council.py`) -/

/-- One Stage-1 result dict.  `member_id` and `worktree_path` are present
only when a workspace was created for the member; `diff` only when the diff
extraction succeeded with non-empty output. -/
structure Stage1Result where
  model : String
  provider : String
  member_index : Nat
  response : String
  member_id : Option String
  worktree_path : Option String
  diff : Option String
deriving DecidableEq, Repr

/-- Windows-safe directory name:
`member["full_name"].replace('/', '_').replace(':', '_')` (single-character
replacement, written over the character list). -/
def safeModelName (full_name : String) : String :=
  String.mk ((full_name.toList.map (fun c => if c = '/' then '_' else c)).map
    (fun c => if c = ':' then '_' else c))

/-- The workspace identifier `f"member_{i}_{safe_model_name}"`. -/
def memberWorkspaceId (i : Nat) (full_name : String) : String :=
  "member_" ++ toString i ++ "_" ++ safeModelName full_name

/-- A Python exception escaping the orchestrator.  `attributeError name`
models the `AttributeError` raised by an access to the undefined attribute
`name`. -/
inductive PyError
  | attributeError (name : String)
deriving DecidableEq, Repr

/-- The `worktree_paths` registry built at the start of Stage 1, keyed by
member index (a workspace path is identified here by its member id).
Creation is attempted for every member exactly when `use_worktrees`;
`createOk i` tells whether `create_worktree` succeeded for member `i` (on
failure the source logs and leaves the member without a workspace). -/
def worktreePathsFor (members : List Member) (use_worktrees : Bool)
    (createOk : Nat → Bool) : List (Nat × String) :=
  if use_worktrees then
    members.enum.filterMap (fun p =>
      if createOk p.1 then some (p.1, memberWorkspaceId p.1 p.2.full_name) else none)
  else []

/-- The outcome of Stage 1: either the result list or the exception the
result loop raised, plus the `worktree_paths` registry of workspaces
created (the workspaces are created before the result loop runs, so they
exist either way). -/
structure Stage1Output where
  outcome : Except PyError (List Stage1Result)
  created : List (Nat × String)
deriving Repr

/-- One iteration of the Stage-1 result loop.  The result dict is built
from the invocation record; when the member has a created workspace its
`member_id`/`worktree_path` keys are added and, if the response content is
truthy (non-empty), the source then calls `self._extract_and_write_code`
(council.py line 112) — a method `CouncilOrchestrator` never defines — so
the iteration raises `AttributeError` there.  Otherwise the `diff` key is
attached when `get_worktree_diff` succeeded with non-empty output
(`diffOutcome i` is its text for member `i`, `none` when it raised: the
source logs and leaves the key absent; a falsy empty diff also leaves it
absent). -/
def stage1Item (worktree_paths : List (Nat × String))
    (diffOutcome : Nat → Option String) (item : QueryResult) :
    Except PyError Stage1Result :=
  match worktree_paths.lookup item.member_index with
  | some mid =>
    if item.response.content = "" then
      .ok { model := item.full_name, provider := item.provider,
            member_index := item.member_index, response := item.response.content,
            member_id := some mid, worktree_path := some mid,
            diff := match diffOutcome item.member_index with
              | some d => if d = "" then none else some d
              | none => none }
    else .error (.attributeError "_extract_and_write_code")
  | none =>
    .ok { model := item.full_name, provider := item.provider,
          member_index := item.member_index, response := item.response.content,
          member_id := none, worktree_path := none, diff := none }

/-- The Stage-1 result loop: entries accumulate in order until an
iteration raises, which discards the partial list and propagates the
exception. -/
def stage1Loop (worktree_paths : List (Nat × String))
    (diffOutcome : Nat → Option String) :
    List QueryResult → Except PyError (List Stage1Result)
  | [] => .ok []
  | item :: rest =>
    match stage1Item worktree_paths diffOutcome item with
    | .error e => .error e
    | .ok r =>
      match stage1Loop worktree_paths diffOutcome rest with
      | .error e => .error e
      | .ok rs => .ok (r :: rs)

/-- `CouncilOrchestrator.stage1_collect_responses`.  External outcomes are
explicit: `createOk` for worktree creation, `responses` for the member
invocations, `diffOutcome` for the diff extraction (see `stage1Item`).
Because `_extract_and_write_code` is defined nowhere, the result loop
raises `AttributeError` whenever some responding member with a created
workspace returned non-empty content; nothing in the orchestrator catches
it. -/
def stage1_collect_responses (members : List Member) (use_worktrees : Bool)
    (createOk : Nat → Bool) (responses : List (Option Response))
    (diffOutcome : Nat → Option String) : Stage1Output :=
  let worktree_paths := worktreePathsFor members use_worktrees createOk
  ⟨stage1Loop worktree_paths diffOutcome (query_members_parallel members responses),
   worktree_paths⟩

/-- Anonymized labels "A", "B", ... : `[chr(65 + i) for i in range(n)]`. -/
def labelsFor (n : Nat) : List String :=
  (List.range n).map (fun i => String.mk [Char.ofNat (65 + i)])

/-- The label-to-model mapping built once per session in Stage 2:
`{f"Response {label}": result['model'] for label, result in zip(labels, stage1_results)}`. -/
def label_to_model (stage1_results : List Stage1Result) : List (String × String) :=
  ((labelsFor stage1_results.length).zip stage1_results).map
    (fun p => ("Response " ++ p.1, p.2.model))

/-- `CouncilOrchestrator.stage2_collect_rankings`, restricted to the data
flow the claims depend on: all members are queried with one shared ranking
prompt (outcomes in `responses2`) and each reply is parsed independently;
the label mapping is built from the Stage-1 results and returned.  The
prompt text itself (including its Response→Proposal rewriting for code
sessions) influences only the external invocations, not any modelled
value. -/
def stage2_collect_rankings (members : List Member)
    (stage1_results : List Stage1Result) (responses2 : List (Option Response)) :
    List Stage2Result × List (String × String) :=
  ((query_members_parallel members responses2).map (fun item =>
      { model := item.full_name, provider := item.provider,
        ranking := item.response.content,
        parsed_ranking := parseRankingFromText item.response.content }),
    label_to_model stage1_results)

/-- Stage-3 result dict. -/
structure Stage3Result where
  model : String
  provider : String
  response : String
deriving DecidableEq, Repr

/-- `CouncilOrchestrator.stage3_synthesize_final`: the chairman's reply, or
the fixed fallback message when the chairman invocation fails. -/
def stage3_synthesize_final (chairman : Member) (response : Option Response) :
    Stage3Result :=
  match response with
  | none =>
    ⟨chairman.full_name, chairman.provider, "Error: Unable to generate final synthesis."⟩
  | some r => ⟨chairman.full_name, chairman.provider, r.content⟩

/-! ## Merge decision (`CouncilOrchestrator._handle_merge`) -/

/-- Merge decision statuses.  `applied` is the status the specification
reserves for the unstaged (no-commit) integration path; `handle_merge` is
proved below never to produce it. -/
inductive MergeStatus
  | merged
  | applied
  | dry_run
  | no_changes
  | cancelled
  | error
deriving DecidableEq, Repr

/-- The merge decision dict. -/
structure MergeResult where
  status : MergeStatus
  message : Option String := none
  member : Option String := none
  member_id : Option String := none
  members_with_diffs : Option Nat := none
deriving DecidableEq, Repr

/-- Git-level side effects the merge performs, in order. -/
inductive GitAction
  | commitWorktree (member_id : String) (message : String)
  | applyToMain (member_id : String) (strategy : String)
  | applyUnstaged (member_id : String)
deriving DecidableEq, Repr

/-- Python truthiness of an optional string dict entry. -/
def truthy : Option String → Bool
  | some s => s ≠ ""
  | none => false

/-- `[r for r in stage1_results if r.get('diff') and r.get('member_id')]`. -/
def membersWithDiffs (stage1_results : List Stage1Result) : List Stage1Result :=
  stage1_results.filter (fun r => truthy r.diff && truthy r.member_id)

/-- The auto-mode walk down `aggregate_rankings[1:]`: the first non-empty
`[r for r in members_with_diffs if r['model'] == label_to_model.get(label)]`,
or the empty list when the loop finds none. -/
def walkRanking (mwd : List Stage1Result) (ltm : List (String × String)) :
    List (String × ℚ) → List Stage1Result
  | [] => []
  | (label, _) :: rest =>
    let matching := mwd.filter (fun r => ltm.lookup label = some r.model)
    if matching.isEmpty then walkRanking mwd ltm rest else matching

/-- The `elif merge_mode == "manual" / elif merge_mode == "auto" / target is
None` chain of `_handle_merge`, producing either the selected Stage-1 entry
or the error result returned in its place.  (`matching[0]` is the head of
the computed `matching` list.) -/
def selectTarget (mwd : List Stage1Result)
    (aggregate_rankings : List (String × ℚ)) (ltm : List (String × String))
    (merge_mode : String) (merge_member : Option Int) :
    Except MergeResult Stage1Result :=
  if merge_mode = "manual" then
    match merge_member with
    | none =>
      .error { status := .error,
               message := some "No member index specified for manual merge" }
    | some idx =>
      match mwd.filter (fun r => (r.member_index : Int) = idx - 1) with
      | [] =>
        .error { status := .error,
                 message := some ("Member " ++ toString idx ++ " not found or has no changes") }
      | t :: _ => .ok t
  else if merge_mode = "auto" then
    match aggregate_rankings with
    | [] => .error { status := .error, message := some "No rankings available" }
    | (top_label, _) :: restRanks =>
      match ltm.lookup top_label with
      | none =>
        .error { status := .error,
                 message := some ("Could not find model for " ++ top_label) }
      | some top_model =>
        if top_model = "" then
          .error { status := .error,
                   message := some ("Could not find model for " ++ top_label) }
        else
          let matching := mwd.filter (fun r => r.model = top_model)
          let matching := if matching.isEmpty then walkRanking mwd ltm restRanks
                          else matching
          match matching with
          | [] =>
            .error { status := .error,
                     message := some "No ranked member has code changes" }
          | t :: _ => .ok t
  else .error { status := .error, message := some "No target member found for merge" }

/-- The tail of `_handle_merge` once a target is selected: optional
confirmation, then commit, then merge into main; effects are recorded in
the returned action trace. -/
def finalizeMerge (target : Stage1Result)
    (confirm_merge : Bool) (confirmAnswer : String)
    (commitOutcome : String → Except String Bool)
    (applyOutcome : String → Except String Unit) : MergeResult × List GitAction :=
  if confirm_merge && !(confirmAnswer.trim.toLower = "y") then
    ({ status := .cancelled, message := some "Merge cancelled by user" }, [])
  else
    let mid := target.member_id.getD ""
    let commitMsg := "Council proposal from " ++ target.model
    match commitOutcome mid with
    | .error e =>
      ({ status := .error, message := some e }, [.commitWorktree mid commitMsg])
    | .ok false =>
      ({ status := .error, message := some "Nothing to commit" },
       [.commitWorktree mid commitMsg])
    | .ok true =>
      match applyOutcome mid with
      | .error e =>
        ({ status := .error, message := some e },
         [.commitWorktree mid commitMsg, .applyToMain mid "merge"])
      | .ok _ =>
        ({ status := .merged, member := some target.model, member_id := some mid },
         [.commitWorktree mid commitMsg, .applyToMain mid "merge"])

/-- `CouncilOrchestrator._handle_merge`, returning the merge decision and an
explicit trace of the git-level actions attempted.  External outcomes are
explicit: `confirmAnswer` is the raw `input()` reply, `commitOutcome mid`
the outcome of `commit_changes` (an exception carries its message, success
carries the committed/nothing-to-commit boolean), `applyOutcome mid` the
outcome of `apply_changes_to_main`. -/
def handle_merge (stage1_results : List Stage1Result)
    (aggregate_rankings : List (String × ℚ)) (ltm : List (String × String))
    (merge_mode : String) (merge_member : Option Int)
    (confirm_merge : Bool) (confirmAnswer : String)
    (commitOutcome : String → Except String Bool)
    (applyOutcome : String → Except String Unit) : MergeResult × List GitAction :=
  let mwd := membersWithDiffs stage1_results
  if mwd.isEmpty then
    ({ status := .no_changes, message := some "No code changes to merge" }, [])
  else if merge_mode = "dry-run" then
    ({ status := .dry_run, members_with_diffs := some mwd.length }, [])
  else
    match selectTarget mwd aggregate_rankings ltm merge_mode merge_member with
    | .error res => (res, [])
    | .ok target =>
      finalizeMerge target confirm_merge confirmAnswer commitOutcome applyOutcome

/-! ## Full session (`CouncilOrchestrator.run_full_council`) -/

/-- The session result object.  The zero-responses error path returns a dict
with keys `error/stage1/stage2/stage3` only; the remaining fields stay
`none` there. -/
structure SessionResult where
  error : Option String := none
  query : Option String := none
  stage1 : List Stage1Result
  stage2 : List Stage2Result
  stage3 : Option Stage3Result
  aggregate_rankings : Option (List (String × ℚ)) := none
  label_to_model : Option (List (String × String)) := none
  merge_result : Option MergeResult := none
deriving DecidableEq, Repr

/-- A session's outcome: the returned result object — or the exception
that escaped instead — plus the workspace registry at session end and the
git actions performed by the merge step. -/
structure SessionOutcome where
  result : Except PyError SessionResult
  worktrees : List String
  gitTrace : List GitAction
deriving Repr

/-- Whether the session raised an exception instead of returning a result
object. -/
def SessionOutcome.raised (o : SessionOutcome) : Bool :=
  match o.result with
  | .error _ => true
  | .ok _ => false

/-- The `error` key of the returned result object (`none` when the session
raised and returned no object at all). -/
def SessionOutcome.errorKey (o : SessionOutcome) : Option String :=
  match o.result with
  | .error _ => none
  | .ok r => r.error

/-- `CouncilOrchestrator.run_full_council` with all external outcomes
explicit.  `worktrees0` is the workspace registry left over from previous
sessions; `prepare_fresh_worktrees` empties it at the start of a worktrees
session, and `cleanup_all_worktrees` empties the registry again at the end
of the paths that reach it.  Two paths never reach that cleanup: the
zero-responses error return happens before it, and when the Stage-1 result
loop raises `AttributeError` (see `stage1_collect_responses`) the exception
propagates out of the session uncaught; in both cases the workspaces
created in Stage 1 survive. -/
def run_full_council (members : List Member) (chairman : Member)
    (user_query : String) (use_worktrees : Bool)
    (createOk : Nat → Bool) (stage1Responses : List (Option Response))
    (diffOutcome : Nat → Option String) (stage2Responses : List (Option Response))
    (stage3Response : Option Response)
    (merge_mode : Option String) (merge_member : Option Int)
    (confirm_merge : Bool) (confirmAnswer : String)
    (commitOutcome : String → Except String Bool)
    (applyOutcome : String → Except String Unit)
    (worktrees0 : List String) : SessionOutcome :=
  let afterPrep : List String := if use_worktrees then [] else worktrees0
  let s1 := stage1_collect_responses members use_worktrees createOk
    stage1Responses diffOutcome
  let current : List String := afterPrep ++ s1.created.map Prod.snd
  match s1.outcome with
  | .error e => { result := .error e, worktrees := current, gitTrace := [] }
  | .ok results =>
    if results.isEmpty then
      { result := .ok { error := some "No responses received from council members",
                        stage1 := [], stage2 := [], stage3 := none },
        worktrees := current, gitTrace := [] }
    else
      let s2 := stage2_collect_rankings members results stage2Responses
      let aggregate := calculate_aggregate_rankings s2.1 s2.2
      let stage3 := stage3_synthesize_final chairman stage3Response
      let merge : Option (MergeResult × List GitAction) :=
        if use_worktrees && truthy merge_mode then
          some (handle_merge results aggregate s2.2 (merge_mode.getD "")
            merge_member confirm_merge confirmAnswer commitOutcome applyOutcome)
        else none
      let finalWorktrees : List String := if use_worktrees then [] else current
      { result := .ok { query := some user_query, stage1 := results, stage2 := s2.1,
                        stage3 := some stage3, aggregate_rankings := some aggregate,
                        label_to_model := some s2.2,
                        merge_result := merge.map Prod.fst },
        worktrees := finalWorktrees,
        gitTrace := (merge.map Prod.snd).getD [] }

/-! ## Worktree commit (`WorktreeManager.commit_changes`) -/

/-- Outcome of one git subprocess invocation. -/
structure GitCommandResult where
  returncode : Int
  stdout : String
  stderr : String
deriving DecidableEq, Repr

/-- Python's `"nothing to commit" in out` over our character-list substring
test. -/
def containsNothingToCommit (out : String) : Bool :=
  containsSub "nothing to commit".toList out.toList

/-- `WorktreeManager.commit_changes`: stage everything, then commit; when
the commit subprocess fails but reports "nothing to commit", return `false`
instead of raising; raise (modelled by `Except.error`) on other failures.
`runGit args` is the outcome of the corresponding subprocess. -/
def commit_changes (runGit : List String → GitCommandResult)
    (worktreeExists : Bool) (message : String) : Except String Bool :=
  if !worktreeExists then
    .error "Worktree does not exist"
  else
    let addResult := runGit ["add", "-A"]
    if addResult.returncode ≠ 0 then
      .error ("Failed to stage changes: " ++ addResult.stderr)
    else
      let commitResult := runGit ["commit", "-m", message]
      if commitResult.returncode ≠ 0 then
        if containsNothingToCommit commitResult.stdout ||
            containsNothingToCommit commitResult.stderr then
          .ok false
        else
          .error ("Failed to commit changes: " ++ commitResult.stderr)
      else
        .ok true

/-! ### Fixtures for the concrete claim evaluations -/

/-- Commit oracle: every commit succeeds with something to commit. -/
def commitAllOk : String → Except String Bool := fun _ => .ok true

/-- Commit oracle: every commit reports nothing to commit. -/
def commitNothingToCommit : String → Except String Bool := fun _ => .ok false

/-- Apply oracle: integration into main always succeeds. -/
def applyAllOk : String → Except String Unit := fun _ => .ok ()

def memberM : Member := ⟨"opencode", "m", "m"⟩

def chairmanC : Member := ⟨"opencode", "c", "c"⟩

/-- Stage-1 entry of the first of two members sharing the model name "m",
with a non-empty diff. -/
def s1dup0 : Stage1Result :=
  { model := "m", provider := "opencode", member_index := 0, response := "r0",
    member_id := some "member_0_m", worktree_path := some "member_0_m",
    diff := some "d0" }

/-- Stage-1 entry of the second member with the same model name "m", also
with a non-empty diff. -/
def s1dup1 : Stage1Result :=
  { model := "m", provider := "opencode", member_index := 1, response := "r1",
    member_id := some "member_1_m", worktree_path := some "member_1_m",
    diff := some "d1" }

/-- A Stage-1 entry whose member produced no diff. -/
def s1noDiff : Stage1Result :=
  { model := "m", provider := "opencode", member_index := 0, response := "r0",
    member_id := some "member_0_m", worktree_path := some "member_0_m",
    diff := none }

/-- The spec's aggregator example: parsed rankings [[A,B,C],[B,A,C]]. -/
def stage2Ex : List Stage2Result :=
  [{ model := "m1", provider := "opencode", ranking := "", parsed_ranking := ["A", "B", "C"] },
   { model := "m2", provider := "opencode", ranking := "", parsed_ranking := ["B", "A", "C"] }]

/-- One rater ranking a token ("Proposal X") that corresponds to no issued
label, above a real one. -/
def stage2Bogus : List Stage2Result :=
  [{ model := "m1", provider := "opencode", ranking := "",
     parsed_ranking := ["Proposal X", "Response A"] }]

/-- A ranking reply containing the marker twice. -/
def twoMarkerText : String :=
  "FINAL RANKING:\n1. Response A\nFINAL RANKING:\n1. Response B\n"

/-- A worktrees session in which the only member never responds. -/
def zeroRespondersSession : SessionOutcome :=
  run_full_council [memberM] chairmanC "q" true (fun _ => true) [none]
    (fun _ => none) [] none none none false "" commitAllOk applyAllOk []

/-- A worktrees session in which the only member responds with non-empty
content, so Stage 1 reaches the undefined `_extract_and_write_code` call
and raises. -/
def oneResponderSession : SessionOutcome :=
  run_full_council [memberM] chairmanC "q" true (fun _ => true)
    [some ⟨"hello"⟩] (fun _ => none) [] none none none false ""
    commitAllOk applyAllOk []

/-- A worktrees session whose only member responds with empty content:
a worktree run that dodges the `AttributeError` and reaches the cleanup
step. -/
def emptyContentSession : SessionOutcome :=
  run_full_council [memberM] chairmanC "q" true (fun _ => true)
    [some ⟨""⟩] (fun _ => none) [] none none none false ""
    commitAllOk applyAllOk []

/-- Git oracle whose commit subprocess fails reporting nothing to commit. -/
def gitNothingToCommit : List String → GitCommandResult := fun args =>
  if args = ["commit", "-m", "Council proposal from m"] then
    { returncode := 1,
      stdout := "On branch council/x\nnothing to commit, working tree clean\n",
      stderr := "" }
  else { returncode := 0, stdout := "", stderr := "" }

/-! ### Parser lemmas -/

theorem matchKindWord_shape {s kw r : List Char} (h : matchKindWord s = some (kw, r)) :
    kw = "Response".toList ∨ kw = "Proposal".toList := by
  unfold matchKindWord at h
  split at h
  · injection h with h'
    exact Or.inl (congrArg Prod.fst h').symm
  · split at h
    · injection h with h'
      exact Or.inr (congrArg Prod.fst h').symm
    · exact absurd h (by simp)

/-- Every token produced by a successful match of the numbered-item pattern
has the form kind-word, then non-empty whitespace, then one uppercase
letter. -/
theorem matchRankItem_shape {s t r : List Char} (h : matchRankItem s = some (t, r)) :
    ∃ kw ws c, t = kw ++ ws ++ [c] ∧
      (kw = "Response".toList ∨ kw = "Proposal".toList) ∧
      ws ≠ [] ∧ (∀ x ∈ ws, isSpaceChar x) ∧ isUpperChar c := by
  simp only [matchRankItem] at h
  split at h
  all_goals try exact Option.noConfusion h
  split at h
  all_goals try exact Option.noConfusion h
  split at h
  all_goals try exact Option.noConfusion h
  split at h
  all_goals try exact Option.noConfusion h
  split at h
  all_goals try exact Option.noConfusion h
  split at h
  all_goals try exact Option.noConfusion h
  rename_i hds s1 s2 heqdot x kw s4 hkind hws s5 c s6 hdrop hup
  injection h with h'
  injection h' with ht hr
  refine ⟨kw, List.takeWhile isSpaceChar s4, c, ht.symm,
    matchKindWord_shape hkind, ?_, ?_, hup⟩
  · simpa [List.isEmpty_iff] using hws
  · intro y hy
    exact List.mem_takeWhile_imp hy

theorem findRankItemsAux_shape :
    ∀ (fuel : Nat) (s t : List Char), t ∈ findRankItemsAux fuel s →
      ∃ kw ws c, t = kw ++ ws ++ [c] ∧
        (kw = "Response".toList ∨ kw = "Proposal".toList) ∧
        ws ≠ [] ∧ (∀ x ∈ ws, isSpaceChar x) ∧ isUpperChar c := by
  intro fuel
  induction fuel with
  | zero =>
    intro s t ht
    cases s <;> simp [findRankItemsAux] at ht
  | succ fuel ih =>
    intro s t ht
    cases s with
    | nil => simp [findRankItemsAux] at ht
    | cons c rest =>
      rw [findRankItemsAux] at ht
      cases hm : matchRankItem (c :: rest) with
      | none =>
        rw [hm] at ht
        replace ht : t ∈ findRankItemsAux fuel rest := ht
        exact ih rest t ht
      | some pr =>
        obtain ⟨tok, s2⟩ := pr
        rw [hm] at ht
        replace ht : t ∈ tok :: findRankItemsAux fuel s2 := ht
        rcases List.mem_cons.mp ht with ht | ht
        · exact ht ▸ matchRankItem_shape hm
        · exact ih s2 t ht

theorem length_dropWhile_le {α : Type} (p : α → Bool) :
    ∀ l : List α, (l.dropWhile p).length ≤ l.length := by
  intro l
  induction l with
  | nil => simp
  | cons a l ih =>
    rw [List.dropWhile_cons]
    by_cases h : p a = true
    · rw [if_pos h]
      exact Nat.le_succ_of_le ih
    · rw [if_neg h]

theorem length_dropWhile_lt {α : Type} (p : α → Bool) (a : α) (l : List α)
    (h : p a = true) : ((a :: l).dropWhile p).length < (a :: l).length := by
  rw [List.dropWhile_cons, if_pos h]
  exact Nat.lt_succ_of_le (length_dropWhile_le p l)

theorem matchKindWord_rest_le {s kw r : List Char}
    (h : matchKindWord s = some (kw, r)) : r.length ≤ s.length := by
  unfold matchKindWord at h
  split at h
  · injection h with h'
    have hr : s.drop 8 = r := congrArg Prod.snd h'
    rw [← hr, List.length_drop]
    omega
  · split at h
    · injection h with h'
      have hr : s.drop 8 = r := congrArg Prod.snd h'
      rw [← hr, List.length_drop]
      omega
    · exact Option.noConfusion h

/-- A successful match consumes at least one character, so the scanner's
fuel, instantiated with the input length, is never exhausted. -/
theorem matchRankItem_rest_lt {s t r : List Char}
    (h : matchRankItem s = some (t, r)) : r.length < s.length := by
  simp only [matchRankItem] at h
  split at h
  all_goals try exact Option.noConfusion h
  split at h
  all_goals try exact Option.noConfusion h
  split at h
  all_goals try exact Option.noConfusion h
  split at h
  all_goals try exact Option.noConfusion h
  split at h
  all_goals try exact Option.noConfusion h
  split at h
  all_goals try exact Option.noConfusion h
  rename_i hds s1 s2 heqdot x kw s4 hkind hws s5 c s6 hdrop hup
  injection h with h'
  injection h' with ht hr
  have h1 : (s.dropWhile isDigitChar).length < s.length := by
    cases s with
    | nil => simp at hds
    | cons a l =>
      by_cases hpa : isDigitChar a = true
      · exact length_dropWhile_lt _ a l hpa
      · rw [List.takeWhile_cons, if_neg hpa] at hds
        simp at hds
  have h2 : s2.length < (s.dropWhile isDigitChar).length := by
    rw [heqdot]
    simp
  have h3 : (s2.dropWhile isSpaceChar).length ≤ s2.length := length_dropWhile_le _ _
  have h4 : s4.length ≤ (s2.dropWhile isSpaceChar).length := matchKindWord_rest_le hkind
  have h5 : (s4.dropWhile isSpaceChar).length ≤ s4.length := length_dropWhile_le _ _
  have h6 : s6.length < (s4.dropWhile isSpaceChar).length := by
    rw [hdrop]
    simp
  rw [← hr]
  omega

/-- The fuel of the scanner is irrelevant from the input length upward: the
instantiation with the input length in `findRankItems` never truncates the
scan. -/
theorem findRankItemsAux_eq_of_le :
    ∀ (f : Nat) (s : List Char), s.length ≤ f →
      findRankItemsAux f s = findRankItemsAux s.length s := by
  intro f
  induction f using Nat.strong_induction_on with
  | _ f ih =>
    intro s hf
    cases s with
    | nil => cases f <;> rfl
    | cons c rest =>
      cases f with
      | zero => simp at hf
      | succ f' =>
        rw [show (c :: rest).length = rest.length + 1 from rfl]
        rw [findRankItemsAux, findRankItemsAux]
        cases hm : matchRankItem (c :: rest) with
        | none =>
          simp only [hm]
          have hrest : rest.length ≤ f' := by
            have : (c :: rest).length = rest.length + 1 := rfl
            omega
          rw [ih f' (by omega) rest hrest]
        | some pr =>
          obtain ⟨tok, s2⟩ := pr
          simp only [hm]
          have hlt : s2.length ≤ rest.length := by
            have := matchRankItem_rest_lt hm
            have hc : (c :: rest).length = rest.length + 1 := rfl
            omega
          have hrest : rest.length ≤ f' := by
            have : (c :: rest).length = rest.length + 1 := rfl
            omega
          rw [ih f' (by omega) s2 (by omega)]
          rw [ih rest.length (by omega) s2 hlt]

/-- The fuel of the splitter is likewise irrelevant from the input length
upward. -/
theorem pySplitAux_eq_of_le (sep : List Char) :
    ∀ (f : Nat) (s acc : List Char), s.length ≤ f →
      pySplitAux sep f s acc = pySplitAux sep s.length s acc := by
  intro f
  induction f using Nat.strong_induction_on with
  | _ f ih =>
    intro s acc hf
    cases s with
    | nil => cases f <;> rfl
    | cons c rest =>
      cases f with
      | zero => simp at hf
      | succ f' =>
        rw [show (c :: rest).length = rest.length + 1 from rfl]
        rw [pySplitAux, pySplitAux]
        have hrest : rest.length ≤ f' := by
          have : (c :: rest).length = rest.length + 1 := rfl
          omega
        by_cases hp : sep.isPrefixOf (c :: rest) = true
        · rw [if_pos hp, if_pos hp]
          have hlen : (rest.drop (sep.length - 1)).length ≤ rest.length := by
            rw [List.length_drop]
            omega
          rw [ih f' (by omega) (rest.drop (sep.length - 1)) [] (by omega)]
          rw [ih rest.length (by omega) (rest.drop (sep.length - 1)) [] hlen]
        · rw [if_neg hp, if_neg hp]
          rw [ih f' (by omega) rest (c :: acc) hrest]

/-- If the marker is absent the parser returns the empty list. -/
theorem parseRankingFromText_of_no_marker (s : String)
    (h : containsSub rankingMarker s.toList = false) :
    parseRankingFromText s = [] := by
  have h' : containsSub rankingMarker s.data = false := h
  simp [parseRankingFromText, h']

/-- Every string the parser returns is a kind word, whitespace, and one
uppercase letter. -/
theorem parseRankingFromText_shape (s : String) (t : String)
    (ht : t ∈ parseRankingFromText s) :
    ∃ kw ws c, t = String.mk (kw ++ ws ++ [c]) ∧
      (kw = "Response".toList ∨ kw = "Proposal".toList) ∧
      ws ≠ [] ∧ (∀ x ∈ ws, isSpaceChar x) ∧ isUpperChar c := by
  simp only [parseRankingFromText] at ht
  split at ht
  · split at ht
    · rcases List.mem_map.mp ht with ⟨tl, htl, rfl⟩
      rcases findRankItemsAux_shape _ _ tl htl with ⟨kw, ws, c, rfl, hkind, hws, hsp, hup⟩
      exact ⟨kw, ws, c, rfl, hkind, hws, hsp, hup⟩
    · simp at ht
  · simp at ht

/-! ### Aggregator lemmas: keys of the scores dict -/

theorem insertScore_any_iff (d : List (String × List ℚ)) (label : String) :
    (d.any (fun e => e.1 = label)) = true ↔ label ∈ d.map Prod.fst := by
  rw [List.any_eq_true]
  constructor
  · rintro ⟨e, he, hl⟩
    exact List.mem_map.mpr ⟨e, he, of_decide_eq_true hl⟩
  · intro h
    rcases List.mem_map.mp h with ⟨e, he, rfl⟩
    exact ⟨e, he, decide_eq_true rfl⟩

theorem keys_insertScore_mem {d : List (String × List ℚ)} {label : String}
    (h : label ∈ d.map Prod.fst) (score : ℚ) :
    (insertScore d label score).map Prod.fst = d.map Prod.fst := by
  unfold insertScore
  rw [if_pos ((insertScore_any_iff d label).mpr h)]
  rw [List.map_map]
  apply List.map_congr_left
  intro e _
  by_cases he : e.1 = label <;> simp [he]

theorem keys_insertScore_not_mem {d : List (String × List ℚ)} {label : String}
    (h : label ∉ d.map Prod.fst) (score : ℚ) :
    (insertScore d label score).map Prod.fst = d.map Prod.fst ++ [label] := by
  unfold insertScore
  rw [if_neg (fun hc => h ((insertScore_any_iff d label).mp hc))]
  simp

/-- The result of a Python dict lookup only depends on which keys are in the
seen set, so the accumulator of `dedupFirstAux` can be exchanged for any
membership-equivalent one. -/
theorem dedupFirstAux_congr :
    ∀ (l seen seen' : List String), (∀ a, a ∈ seen ↔ a ∈ seen') →
      dedupFirstAux l seen = dedupFirstAux l seen' := by
  intro l
  induction l with
  | nil => intro seen seen' _; rfl
  | cons x l ih =>
    intro seen seen' h
    simp only [dedupFirstAux]
    by_cases hx : x ∈ seen
    · rw [if_pos hx, if_pos ((h x).mp hx)]
      exact ih seen seen' h
    · rw [if_neg hx, if_neg (fun hc => hx ((h x).mpr hc))]
      refine congrArg (x :: ·) (ih _ _ ?_)
      intro a
      simp [h a]

theorem mem_dedupFirstAux :
    ∀ (l seen : List String) (a : String),
      a ∈ dedupFirstAux l seen ↔ a ∈ l ∧ a ∉ seen := by
  intro l
  induction l with
  | nil => intro seen a; simp [dedupFirstAux]
  | cons x l ih =>
    intro seen a
    simp only [dedupFirstAux]
    by_cases hx : x ∈ seen
    · rw [if_pos hx, ih]
      constructor
      · rintro ⟨ha, hs⟩
        exact ⟨List.mem_cons_of_mem _ ha, hs⟩
      · rintro ⟨ha, hs⟩
        rcases List.mem_cons.mp ha with rfl | ha
        · exact absurd hx hs
        · exact ⟨ha, hs⟩
    · rw [if_neg hx]
      constructor
      · intro ha
        rcases List.mem_cons.mp ha with rfl | ha
        · exact ⟨List.mem_cons_self _ _, hx⟩
        · rcases (ih _ _).mp ha with ⟨hl, hs⟩
          exact ⟨List.mem_cons_of_mem _ hl, fun hc => hs (List.mem_cons_of_mem _ hc)⟩
      · rintro ⟨ha, hs⟩
        rcases List.mem_cons.mp ha with rfl | ha
        · exact List.mem_cons_self _ _
        · by_cases hax : a = x
          · exact hax ▸ List.mem_cons_self _ _
          · exact List.mem_cons_of_mem _
              ((ih _ _).mpr ⟨ha, fun hc => by
                rcases List.mem_cons.mp hc with rfl | hc
                · exact hax rfl
                · exact hs hc⟩)

/-- The keys accumulated by processing contributions: existing keys keep
their positions, new keys are appended in first-appearance order. -/
theorem keys_processContributions :
    ∀ (ps : List (String × ℚ)) (d : List (String × List ℚ)),
      (processContributions d ps).map Prod.fst =
        d.map Prod.fst ++ dedupFirstAux (ps.map Prod.fst) (d.map Prod.fst) := by
  intro ps
  induction ps with
  | nil => intro d; simp [processContributions, dedupFirstAux]
  | cons p ps ih =>
    intro d
    have hstep : processContributions d (p :: ps) =
        processContributions (insertScore d p.1 p.2) ps := rfl
    rw [hstep, ih]
    by_cases hp : p.1 ∈ d.map Prod.fst
    · rw [keys_insertScore_mem hp]
      simp only [List.map_cons, dedupFirstAux]
      rw [if_pos hp]
    · rw [keys_insertScore_not_mem hp]
      simp only [List.map_cons, dedupFirstAux]
      rw [if_neg hp]
      rw [dedupFirstAux_congr (ps.map Prod.fst) (d.map Prod.fst ++ [p.1])
        (p.1 :: d.map Prod.fst) (by intro a; simp [or_comm])]
      simp

/-! ### Aggregator lemmas: the scores each label accumulates -/

theorem lookupScores_cons (k : String) (v : List ℚ) (d : List (String × List ℚ))
    (x : String) :
    lookupScores ((k, v) :: d) x = if x = k then v else lookupScores d x := by
  simp only [lookupScores, List.lookup]
  by_cases h : x = k
  · simp [h]
  · rw [show (x == k) = false from beq_eq_false_iff_ne.mpr h, if_neg h]

theorem lookupScores_map_of_ne (label : String) (score : ℚ) (x : String)
    (hx : x ≠ label) :
    ∀ d : List (String × List ℚ),
      lookupScores (d.map (fun e => if e.1 = label then (e.1, e.2 ++ [score]) else e)) x =
        lookupScores d x := by
  intro d
  induction d with
  | nil => rfl
  | cons e d ih =>
    obtain ⟨k, v⟩ := e
    by_cases hk : k = label
    · simp only [List.map_cons, if_pos (show (k, v).1 = label from hk)]
      rw [lookupScores_cons, lookupScores_cons, ih]
      rw [if_neg (hk ▸ hx), if_neg (hk ▸ hx)]
    · simp only [List.map_cons, if_neg (show ¬ (k, v).1 = label from hk)]
      rw [lookupScores_cons, lookupScores_cons, ih]

theorem lookupScores_map_self (label : String) (score : ℚ) :
    ∀ d : List (String × List ℚ), label ∈ d.map Prod.fst →
      lookupScores (d.map (fun e => if e.1 = label then (e.1, e.2 ++ [score]) else e)) label =
        lookupScores d label ++ [score] := by
  intro d
  induction d with
  | nil => intro h; simp at h
  | cons e d ih =>
    intro h
    obtain ⟨k, v⟩ := e
    by_cases hk : k = label
    · simp only [List.map_cons, if_pos (show (k, v).1 = label from hk)]
      rw [lookupScores_cons, lookupScores_cons]
      rw [if_pos hk.symm, if_pos hk.symm]
    · simp only [List.map_cons, if_neg (show ¬ (k, v).1 = label from hk)]
      rw [lookupScores_cons, lookupScores_cons]
      rw [if_neg (fun hc : label = k => hk hc.symm),
        if_neg (fun hc : label = k => hk hc.symm)]
      refine ih ?_
      rcases List.mem_map.mp h with ⟨e, he, hfst⟩
      rcases List.mem_cons.mp he with rfl | he
      · exact absurd hfst hk
      · exact List.mem_map.mpr ⟨e, he, hfst⟩

theorem lookupScores_append_new (label : String) (score : ℚ) (x : String) :
    ∀ d : List (String × List ℚ), label ∉ d.map Prod.fst →
      lookupScores (d ++ [(label, [score])]) x =
        lookupScores d x ++ (if x = label then [score] else []) := by
  intro d
  induction d with
  | nil =>
    intro _
    simp only [List.nil_append, lookupScores_cons]
    by_cases hx : x = label <;> simp [lookupScores, hx]
  | cons e d ih =>
    intro h
    obtain ⟨k, v⟩ := e
    have hk : k ≠ label := fun hc => h (by simp [hc])
    simp only [List.cons_append]
    rw [lookupScores_cons, lookupScores_cons]
    by_cases hx : x = k
    · rw [if_pos hx, if_pos hx, if_neg (fun hc : x = label => hk (hx ▸ hc)), List.append_nil]
    · rw [if_neg hx, if_neg hx]
      exact ih (fun hc => h (List.mem_cons_of_mem _ hc))

theorem lookupScores_insertScore (d : List (String × List ℚ)) (label : String)
    (score : ℚ) (x : String) :
    lookupScores (insertScore d label score) x =
      lookupScores d x ++ (if x = label then [score] else []) := by
  unfold insertScore
  by_cases hmem : (d.any (fun e => e.1 = label)) = true
  · rw [if_pos hmem]
    have hk : label ∈ d.map Prod.fst := (insertScore_any_iff d label).mp hmem
    by_cases hx : x = label
    · subst hx
      rw [lookupScores_map_self x score d hk]
      simp
    · rw [lookupScores_map_of_ne label score x hx d]
      simp [hx]
  · rw [if_neg hmem]
    exact lookupScores_append_new label score x d
      (fun hc => hmem ((insertScore_any_iff d label).mpr hc))

theorem lookupScores_processContributions :
    ∀ (ps : List (String × ℚ)) (d : List (String × List ℚ)) (x : String),
      lookupScores (processContributions d ps) x =
        lookupScores d x ++ (ps.filter (fun p => p.1 = x)).map Prod.snd := by
  intro ps
  induction ps with
  | nil => intro d x; simp [processContributions]
  | cons p ps ih =>
    intro d x
    have hstep : processContributions d (p :: ps) =
        processContributions (insertScore d p.1 p.2) ps := rfl
    rw [hstep, ih, lookupScores_insertScore]
    by_cases hx : p.1 = x
    · rw [List.filter_cons_of_pos (by simpa using hx)]
      simp [hx, List.append_assoc]
    · rw [List.filter_cons_of_neg (by simpa using hx)]
      have hx' : ¬ x = p.1 := fun hc => hx hc.symm
      simp [hx']

/-- `rankScores` factors through the flat contribution list. -/
theorem rankScores_eq_processContributions (stage2_results : List Stage2Result) :
    rankScores stage2_results =
      processContributions [] (scoreContributions stage2_results) := by
  suffices h : ∀ (rs : List Stage2Result) (d : List (String × List ℚ)),
      rs.foldl (fun d result =>
        result.parsed_ranking.enum.foldl (fun d p =>
          insertScore d p.2 ((result.parsed_ranking.length : ℚ) - (p.1 + 1) + 1)) d) d =
        processContributions d (scoreContributions rs) by
    exact h stage2_results []
  intro rs
  induction rs with
  | nil => intro d; simp [processContributions, scoreContributions]
  | cons r rs ih =>
    intro d
    simp only [List.foldl_cons, ih]
    have hflat : scoreContributions (r :: rs) =
        (r.parsed_ranking.enum.map (fun p =>
          (p.2, ((r.parsed_ranking.length : ℚ) - (p.1 + 1) + 1)))) ++
          scoreContributions rs := by
      simp [scoreContributions]
    rw [hflat]
    unfold processContributions
    rw [List.foldl_append, List.foldl_map]

/-! ### Aggregator lemmas: key order and the stable sort -/

theorem indexOf_lt_cons_of_ne {x a b : String} {l : List String}
    (ha : a ≠ x) (hb : b ≠ x) (h : l.indexOf a < l.indexOf b) :
    (x :: l).indexOf a < (x :: l).indexOf b := by
  rw [List.indexOf_cons_ne _ (Ne.symm ha), List.indexOf_cons_ne _ (Ne.symm hb)]
  exact Nat.succ_lt_succ h

/-- First-occurrence deduplication lists elements in strictly increasing
first-occurrence position. -/
theorem pairwise_indexOf_dedupFirstAux :
    ∀ (l seen : List String),
      List.Pairwise (fun a b => l.indexOf a < l.indexOf b) (dedupFirstAux l seen) := by
  intro l
  induction l with
  | nil => intro seen; simp [dedupFirstAux]
  | cons x l ih =>
    intro seen
    simp only [dedupFirstAux]
    by_cases hx : x ∈ seen
    · rw [if_pos hx]
      refine (ih seen).imp_of_mem ?_
      intro a b ha hb hab
      have hax : a ≠ x := fun hc =>
        ((mem_dedupFirstAux l seen a).mp ha).2 (hc ▸ hx)
      have hbx : b ≠ x := fun hc =>
        ((mem_dedupFirstAux l seen b).mp hb).2 (hc ▸ hx)
      exact indexOf_lt_cons_of_ne hax hbx hab
    · rw [if_neg hx]
      rw [List.pairwise_cons]
      constructor
      · intro b hb
        have hbx : b ≠ x := fun hc =>
          ((mem_dedupFirstAux l (x :: seen) b).mp hb).2 (hc ▸ List.mem_cons_self x seen)
        rw [List.indexOf_cons_self, List.indexOf_cons_ne _ (Ne.symm hbx)]
        exact Nat.succ_pos _
      · refine (ih (x :: seen)).imp_of_mem ?_
        intro a b ha hb hab
        have hax : a ≠ x := fun hc =>
          ((mem_dedupFirstAux l (x :: seen) a).mp ha).2 (hc ▸ List.mem_cons_self x seen)
        have hbx : b ≠ x := fun hc =>
          ((mem_dedupFirstAux l (x :: seen) b).mp hb).2 (hc ▸ List.mem_cons_self x seen)
        exact indexOf_lt_cons_of_ne hax hbx hab

theorem insertByScoreDesc_perm (x : String × ℚ) :
    ∀ s : List (String × ℚ), (insertByScoreDesc x s).Perm (x :: s) := by
  intro s
  induction s with
  | nil => exact List.Perm.refl _
  | cons y l ih =>
    simp only [insertByScoreDesc]
    by_cases h : x.2 < y.2
    · rw [if_pos h]
      exact (ih.cons y).trans (List.Perm.swap x y l)
    · rw [if_neg h]

theorem sortByScoreDesc_perm :
    ∀ l : List (String × ℚ), (sortByScoreDesc l).Perm l := by
  intro l
  induction l with
  | nil => exact List.Perm.refl _
  | cons a l ih =>
    have hstep : sortByScoreDesc (a :: l) = insertByScoreDesc a (sortByScoreDesc l) := rfl
    rw [hstep]
    exact (insertByScoreDesc_perm a _).trans (ih.cons a)

theorem pairwise_ge_insertByScoreDesc (x : String × ℚ) :
    ∀ s : List (String × ℚ), List.Pairwise (fun a b => b.2 ≤ a.2) s →
      List.Pairwise (fun a b => b.2 ≤ a.2) (insertByScoreDesc x s) := by
  intro s
  induction s with
  | nil => intro _; simp [insertByScoreDesc]
  | cons y l ih =>
    intro hs
    rw [List.pairwise_cons] at hs
    obtain ⟨hy, hl⟩ := hs
    simp only [insertByScoreDesc]
    by_cases h : x.2 < y.2
    · rw [if_pos h, List.pairwise_cons]
      refine ⟨?_, ih hl⟩
      intro b hb
      rcases List.mem_cons.mp ((insertByScoreDesc_perm x l).mem_iff.mp hb) with rfl | hb'
      · exact le_of_lt h
      · exact hy b hb'
    · rw [if_neg h, List.pairwise_cons]
      refine ⟨?_, List.pairwise_cons.mpr ⟨hy, hl⟩⟩
      intro b hb
      rcases List.mem_cons.mp hb with rfl | hb'
      · exact not_lt.mp h
      · exact le_trans (hy b hb') (not_lt.mp h)

/-- The aggregate is sorted descending by score. -/
theorem pairwise_ge_sortByScoreDesc :
    ∀ l : List (String × ℚ),
      List.Pairwise (fun a b => b.2 ≤ a.2) (sortByScoreDesc l) := by
  intro l
  induction l with
  | nil => exact List.Pairwise.nil
  | cons a l ih => exact pairwise_ge_insertByScoreDesc a _ ih

/-- Stability: any pairwise relation that holds vacuously between elements
of different scores survives the descending insertion sort. -/
theorem pairwise_insertByScoreDesc_of (S : String × ℚ → String × ℚ → Prop)
    (hvac : ∀ a b, b.2 < a.2 → S a b) (x : String × ℚ) :
    ∀ s : List (String × ℚ), (∀ z ∈ s, S x z) → List.Pairwise S s →
      List.Pairwise S (insertByScoreDesc x s) := by
  intro s
  induction s with
  | nil => intro _ _; simp [insertByScoreDesc]
  | cons y l ih =>
    intro hx hs
    rw [List.pairwise_cons] at hs
    obtain ⟨hy, hl⟩ := hs
    simp only [insertByScoreDesc]
    by_cases h : x.2 < y.2
    · rw [if_pos h, List.pairwise_cons]
      refine ⟨?_, ih (fun z hz => hx z (List.mem_cons_of_mem _ hz)) hl⟩
      intro b hb
      rcases List.mem_cons.mp ((insertByScoreDesc_perm x l).mem_iff.mp hb) with rfl | hb'
      · exact hvac y b h
      · exact hy b hb'
    · rw [if_neg h, List.pairwise_cons]
      exact ⟨fun b hb => hx b hb, List.pairwise_cons.mpr ⟨hy, hl⟩⟩

theorem pairwise_sortByScoreDesc_of (S : String × ℚ → String × ℚ → Prop)
    (hvac : ∀ a b, b.2 < a.2 → S a b) :
    ∀ l : List (String × ℚ), List.Pairwise S l →
      List.Pairwise S (sortByScoreDesc l) := by
  intro l
  induction l with
  | nil => intro _; exact List.Pairwise.nil
  | cons a l ih =>
    intro h
    rw [List.pairwise_cons] at h
    obtain ⟨ha, hl⟩ := h
    have hstep : sortByScoreDesc (a :: l) = insertByScoreDesc a (sortByScoreDesc l) := rfl
    rw [hstep]
    refine pairwise_insertByScoreDesc_of S hvac a _ ?_ (ih hl)
    intro z hz
    exact ha z ((sortByScoreDesc_perm l).mem_iff.mp hz)

/-! ### Aggregator lemmas: characterization of the aggregate -/

theorem keys_rankScores (rs : List Stage2Result) :
    (rankScores rs).map Prod.fst = dedupFirst (mentionedLabels rs) := by
  rw [rankScores_eq_processContributions, keys_processContributions]
  simp only [List.map_nil, List.nil_append]
  rfl

theorem nodup_keys_rankScores (rs : List Stage2Result) :
    ((rankScores rs).map Prod.fst).Nodup := by
  rw [keys_rankScores]
  refine (pairwise_indexOf_dedupFirstAux (mentionedLabels rs) []).imp ?_
  intro a b h hc
  exact absurd (hc ▸ h) (lt_irrefl _)

theorem mem_keys_rankScores (rs : List Stage2Result) (label : String) :
    label ∈ (rankScores rs).map Prod.fst ↔ label ∈ mentionedLabels rs := by
  rw [keys_rankScores]
  unfold dedupFirst
  rw [mem_dedupFirstAux]
  simp

theorem lookupScores_rankScores (rs : List Stage2Result) (label : String) :
    lookupScores (rankScores rs) label = scoresFor rs label := by
  rw [rankScores_eq_processContributions, lookupScores_processContributions]
  simp only [lookupScores, List.lookup, List.nil_append]
  rfl

theorem mem_assoc_iff_lookupScores :
    ∀ (d : List (String × List ℚ)), (d.map Prod.fst).Nodup →
      ∀ (label : String) (scores : List ℚ),
        ((label, scores) ∈ d ↔ label ∈ d.map Prod.fst ∧ scores = lookupScores d label) := by
  intro d
  induction d with
  | nil => intro _ label scores; simp [lookupScores]
  | cons e d ih =>
    intro hnd label scores
    obtain ⟨k, v⟩ := e
    rw [List.map_cons, List.nodup_cons] at hnd
    obtain ⟨hk, hnd⟩ := hnd
    rw [lookupScores_cons]
    constructor
    · intro h
      rcases List.mem_cons.mp h with heq | h
      · injection heq with h1 h2
        subst h1; subst h2
        simp
      · have hmem := ((ih hnd label scores).mp h).1
        have hne : label ≠ k := fun hc => hk (hc ▸ hmem)
        rw [if_neg hne]
        exact ⟨List.mem_cons_of_mem _ hmem, ((ih hnd label scores).mp h).2⟩
    · rintro ⟨hmem, rfl⟩
      by_cases hl : label = k
      · rw [if_pos hl]
        exact hl ▸ List.mem_cons_self _ _
      · rw [if_neg hl]
        rcases List.mem_cons.mp hmem with hc | hmem'
        · exact absurd hc hl
        · exact List.mem_cons_of_mem _ ((ih hnd label _).mpr ⟨hmem', rfl⟩)

theorem scoresFor_ne_nil {rs : List Stage2Result} {label : String}
    (h : label ∈ mentionedLabels rs) : scoresFor rs label ≠ [] := by
  unfold mentionedLabels at h
  rcases List.mem_map.mp h with ⟨p, hp, rfl⟩
  unfold scoresFor
  intro hc
  rw [List.map_eq_nil_iff] at hc
  have hpmem : p ∈ (scoreContributions rs).filter (fun q => q.1 = p.1) :=
    List.mem_filter.mpr ⟨hp, by simp⟩
  rw [hc] at hpmem
  exact List.not_mem_nil p hpmem

/-- Membership characterization of the aggregate: an entry for a label is in
the aggregate exactly when some rater mentioned the label, and its score is
the arithmetic mean of all scores the label received. -/
theorem mem_calculate_aggregate_iff (rs : List Stage2Result)
    (ltm : List (String × String)) (label : String) (q : ℚ) :
    (label, q) ∈ calculate_aggregate_rankings rs ltm ↔
      label ∈ mentionedLabels rs ∧
        q = (scoresFor rs label).sum / (scoresFor rs label).length := by
  unfold calculate_aggregate_rankings
  rw [(sortByScoreDesc_perm _).mem_iff]
  unfold avgScores
  constructor
  · intro h
    rcases List.mem_map.mp h with ⟨e, he, heq⟩
    obtain ⟨k, scores⟩ := e
    injection heq with h1 h2
    rw [show (k, scores).1 = k from rfl] at h1
    rw [h1] at he
    have hmem := (mem_assoc_iff_lookupScores _ (nodup_keys_rankScores rs) label scores).mp he
    have hlabel : label ∈ mentionedLabels rs := (mem_keys_rankScores rs label).mp hmem.1
    have hscores : scores = scoresFor rs label := by
      rw [hmem.2, lookupScores_rankScores]
    have hne : ¬ ((scoresFor rs label).isEmpty = true) :=
      fun hc => scoresFor_ne_nil hlabel (List.isEmpty_iff.mp hc)
    refine ⟨hlabel, ?_⟩
    rw [← h2]
    rw [show (k, scores).2 = scores from rfl, hscores, if_neg hne]
  · rintro ⟨hmem, rfl⟩
    have hkey : label ∈ (rankScores rs).map Prod.fst := (mem_keys_rankScores rs label).mpr hmem
    have hentry : (label, scoresFor rs label) ∈ rankScores rs :=
      (mem_assoc_iff_lookupScores _ (nodup_keys_rankScores rs) label _).mpr
        ⟨hkey, (lookupScores_rankScores rs label).symm⟩
    refine List.mem_map.mpr ⟨(label, scoresFor rs label), hentry, ?_⟩
    have hne : ¬ ((scoresFor rs label).isEmpty = true) :=
      fun hc => scoresFor_ne_nil hmem (List.isEmpty_iff.mp hc)
    rw [show ((label, scoresFor rs label).2) = scoresFor rs label from rfl, if_neg hne]

/-- Equal-score entries of the aggregate appear in order of first global
appearance of their labels. -/
theorem pairwise_tie_order_calculate (rs : List Stage2Result)
    (ltm : List (String × String)) :
    List.Pairwise (fun a b : String × ℚ => a.2 = b.2 →
        (mentionedLabels rs).indexOf a.1 < (mentionedLabels rs).indexOf b.1)
      (calculate_aggregate_rankings rs ltm) := by
  unfold calculate_aggregate_rankings
  apply pairwise_sortByScoreDesc_of
  · intro a b hba heq
    rw [heq] at hba
    exact absurd hba (lt_irrefl _)
  · have hkeys := pairwise_indexOf_dedupFirstAux (mentionedLabels rs) []
    rw [show dedupFirstAux (mentionedLabels rs) [] = dedupFirst (mentionedLabels rs) from rfl,
      ← keys_rankScores] at hkeys
    rw [List.pairwise_map] at hkeys
    unfold avgScores
    rw [List.pairwise_map]
    refine hkeys.imp ?_
    intro a b h _
    exact h

/-! ### Client and Stage-1 lemmas -/

theorem le_fst_of_mem_enumFrom {α : Type} :
    ∀ (l : List α) (n : Nat) (x : Nat × α), x ∈ l.enumFrom n → n ≤ x.1 := by
  intro l
  induction l with
  | nil => intro n x hx; simp [List.enumFrom] at hx
  | cons a l ih =>
    intro n x hx
    simp only [List.enumFrom] at hx
    rcases List.mem_cons.mp hx with rfl | hx
    · exact Nat.le_refl n
    · exact Nat.le_of_succ_le (ih (n + 1) x hx)

theorem pairwise_fst_lt_enumFrom {α : Type} :
    ∀ (l : List α) (n : Nat),
      List.Pairwise (fun p q : Nat × α => p.1 < q.1) (l.enumFrom n) := by
  intro l
  induction l with
  | nil => intro n; simp [List.enumFrom]
  | cons a l ih =>
    intro n
    simp only [List.enumFrom]
    rw [List.pairwise_cons]
    refine ⟨?_, ih (n + 1)⟩
    intro q hq
    exact Nat.lt_of_lt_of_le (Nat.lt_succ_self n) (le_fst_of_mem_enumFrom l (n + 1) q hq)

/-- Entries of the parallel-query result carry strictly increasing member
indices: dropping failed members does not disturb the relative order. -/
theorem pairwise_member_index_query_members_parallel
    (members : List Member) (responses : List (Option Response)) :
    List.Pairwise (fun a b : QueryResult => a.member_index < b.member_index)
      (query_members_parallel members responses) := by
  unfold query_members_parallel
  rw [List.pairwise_filterMap]
  have henum := pairwise_fst_lt_enumFrom (members.zip responses) 0
  rw [show (members.zip responses).enumFrom 0 = (members.zip responses).enum from rfl] at henum
  refine henum.imp ?_
  intro x y hxy b hb b' hb'
  cases hx : x.2.2 with
  | none => rw [hx] at hb; simp at hb
  | some r =>
    rw [hx] at hb
    cases hy : y.2.2 with
    | none => rw [hy] at hb'; simp at hb'
    | some r' =>
      rw [hy] at hb'
      have hbx : b = ⟨x.1, x.2.1.model, x.2.1.provider, x.2.1.full_name, r⟩ := by
        simpa using hb.symm
      have hby : b' = ⟨y.1, y.2.1.model, y.2.1.provider, y.2.1.full_name, r'⟩ := by
        simpa using hb'.symm
      rw [hbx, hby]
      exact hxy

/-- Membership characterization of the parallel-query result: an entry for
index `i` exists exactly when member `i` exists and responded, and it is
built from member `i`'s record and response. -/
theorem mem_query_members_parallel_iff (members : List Member)
    (responses : List (Option Response)) (e : QueryResult) :
    e ∈ query_members_parallel members responses ↔
      ∃ m r, members[e.member_index]? = some m ∧
        responses[e.member_index]? = some (some r) ∧
        e = ⟨e.member_index, m.model, m.provider, m.full_name, r⟩ := by
  unfold query_members_parallel
  rw [List.mem_filterMap]
  constructor
  · rintro ⟨x, hx, hfx⟩
    cases hx22 : x.2.2 with
    | none => rw [hx22] at hfx; exact Option.noConfusion hfx
    | some r =>
      rw [hx22] at hfx
      injection hfx with he
      have hzip := List.mem_enum_iff_getElem?.mp hx
      have hz := List.getElem?_zip_eq_some.mp hzip
      have hidx : e.member_index = x.1 := by rw [← he]
      refine ⟨x.2.1, r, ?_, ?_, ?_⟩
      · rw [hidx]; exact hz.1
      · rw [hidx, hz.2, hx22]
      · rw [← he]
  · rintro ⟨m, r, hm, hr, he⟩
    refine ⟨(e.member_index, (m, some r)), ?_, ?_⟩
    · exact List.mem_enum_iff_getElem?.mpr
        (List.getElem?_zip_eq_some.mpr ⟨hm, hr⟩)
    · rw [he]

theorem length_query_members_parallel_le (members : List Member)
    (responses : List (Option Response)) :
    (query_members_parallel members responses).length ≤ members.length := by
  refine le_trans (List.length_filterMap_le _ _) ?_
  rw [List.enum_length, List.length_zip]
  exact min_le_left _ _

/-- Stage-1 results carry exactly the member indices of the parallel-query
results, in the same order. -/
theorem stage1Item_member_index (wtp : List (Nat × String))
    (dO : Nat → Option String) (item : QueryResult) (r : Stage1Result)
    (h : stage1Item wtp dO item = .ok r) : r.member_index = item.member_index := by
  unfold stage1Item at h
  cases hl : wtp.lookup item.member_index with
  | none =>
    simp only [hl] at h
    injection h with h2
    rw [← h2]
  | some mid =>
    simp only [hl] at h
    by_cases hc : item.response.content = ""
    · rw [if_pos hc] at h
      injection h with h2
      rw [← h2]
    · rw [if_neg hc] at h
      exact Except.noConfusion h

theorem stage1Item_error_iff (wtp : List (Nat × String)) (dO : Nat → Option String)
    (item : QueryResult) (e : PyError) :
    stage1Item wtp dO item = .error e ↔
      (e = PyError.attributeError "_extract_and_write_code" ∧
        (wtp.lookup item.member_index).isSome ∧ item.response.content ≠ "") := by
  unfold stage1Item
  cases hl : wtp.lookup item.member_index with
  | none => simp
  | some mid =>
    by_cases hc : item.response.content = ""
    · simp [hc]
    · simp only [if_neg hc]
      constructor
      · intro h
        injection h with h2
        exact ⟨h2.symm, by simp, hc⟩
      · intro h
        rw [h.1]

theorem stage1Loop_ok_map (wtp : List (Nat × String)) (dO : Nat → Option String) :
    ∀ (items : List QueryResult) (rs : List Stage1Result),
      stage1Loop wtp dO items = .ok rs →
      rs.map (fun r => r.member_index) = items.map (fun q => q.member_index) := by
  intro items
  induction items with
  | nil =>
    intro rs h
    simp only [stage1Loop] at h
    injection h with h2
    rw [← h2]
    rfl
  | cons item rest ih =>
    intro rs h
    simp only [stage1Loop] at h
    cases hi : stage1Item wtp dO item with
    | error e =>
      simp only [hi] at h
      exact Except.noConfusion h
    | ok r =>
      simp only [hi] at h
      cases hr : stage1Loop wtp dO rest with
      | error e =>
        simp only [hr] at h
        exact Except.noConfusion h
      | ok rs2 =>
        simp only [hr] at h
        injection h with h2
        rw [← h2]
        simp only [List.map_cons]
        rw [stage1Item_member_index wtp dO item r hi, ih rs2 hr]

theorem stage1Loop_error_iff (wtp : List (Nat × String)) (dO : Nat → Option String) :
    ∀ (items : List QueryResult) (e : PyError),
      stage1Loop wtp dO items = .error e ↔
        (e = PyError.attributeError "_extract_and_write_code" ∧
          ∃ item ∈ items, (wtp.lookup item.member_index).isSome ∧
            item.response.content ≠ "") := by
  intro items
  induction items with
  | nil =>
    intro e
    simp [stage1Loop]
  | cons item rest ih =>
    intro e
    constructor
    · intro h
      simp only [stage1Loop] at h
      cases hi : stage1Item wtp dO item with
      | error e2 =>
        simp only [hi] at h
        injection h with h2
        subst h2
        have hx := (stage1Item_error_iff wtp dO item e2).mp hi
        exact ⟨hx.1, item, List.mem_cons_self item rest, hx.2⟩
      | ok r =>
        simp only [hi] at h
        cases hr : stage1Loop wtp dO rest with
        | error e3 =>
          simp only [hr] at h
          injection h with h2
          subst h2
          have hx := (ih e3).mp hr
          obtain ⟨x, hx1, hx2⟩ := hx.2
          exact ⟨hx.1, x, List.mem_cons_of_mem item hx1, hx2⟩
        | ok rs =>
          simp only [hr] at h
          exact Except.noConfusion h
    · intro h
      obtain ⟨he, x, hmem, hx⟩ := h
      subst he
      simp only [stage1Loop]
      rcases List.mem_cons.mp hmem with hx0 | hx1
      · subst hx0
        have hi : stage1Item wtp dO x =
            .error (.attributeError "_extract_and_write_code") :=
          (stage1Item_error_iff wtp dO x _).mpr ⟨rfl, hx⟩
        rw [hi]
      · cases hi : stage1Item wtp dO item with
        | error e2 =>
          have h2 := (stage1Item_error_iff wtp dO item e2).mp hi
          rw [h2.1]
        | ok r =>
          have hrec : stage1Loop wtp dO rest =
              .error (.attributeError "_extract_and_write_code") :=
            (ih _).mpr ⟨rfl, x, hx1, hx⟩
          rw [hrec]

theorem stage1_member_index_map (members : List Member) (use_worktrees : Bool)
    (createOk : Nat → Bool) (responses : List (Option Response))
    (diffOutcome : Nat → Option String) (results : List Stage1Result)
    (h : (stage1_collect_responses members use_worktrees createOk responses
        diffOutcome).outcome = .ok results) :
    results.map (fun r => r.member_index) =
      (query_members_parallel members responses).map (fun q => q.member_index) := by
  have h2 : stage1Loop (worktreePathsFor members use_worktrees createOk) diffOutcome
      (query_members_parallel members responses) = .ok results := h
  exact stage1Loop_ok_map _ _ _ _ h2

theorem stage1_length_le (members : List Member) (use_worktrees : Bool)
    (createOk : Nat → Bool) (responses : List (Option Response))
    (diffOutcome : Nat → Option String) (results : List Stage1Result)
    (h : (stage1_collect_responses members use_worktrees createOk responses
        diffOutcome).outcome = .ok results) :
    results.length ≤ members.length := by
  have hm := congrArg List.length
    (stage1_member_index_map members use_worktrees createOk responses diffOutcome
      results h)
  rw [List.length_map, List.length_map] at hm
  rw [hm]
  exact length_query_members_parallel_le members responses

/-! ### Session lemmas -/

theorem raised_eq_true_of_error {o : SessionOutcome} {e : PyError}
    (h : o.result = .error e) : SessionOutcome.raised o = true := by
  unfold SessionOutcome.raised
  rw [h]

theorem raised_eq_false_of_ok {o : SessionOutcome} {r : SessionResult}
    (h : o.result = .ok r) : SessionOutcome.raised o = false := by
  unfold SessionOutcome.raised
  rw [h]

theorem errorKey_of_error {o : SessionOutcome} {e : PyError}
    (h : o.result = .error e) : SessionOutcome.errorKey o = none := by
  unfold SessionOutcome.errorKey
  rw [h]

theorem errorKey_of_ok {o : SessionOutcome} {r : SessionResult}
    (h : o.result = .ok r) : SessionOutcome.errorKey o = r.error := by
  unfold SessionOutcome.errorKey
  rw [h]

theorem run_full_council_raised (members : List Member) (chairman : Member)
    (q : String) (u : Bool) (cO : Nat → Bool) (r1 : List (Option Response))
    (dO : Nat → Option String) (r2 : List (Option Response)) (r3 : Option Response)
    (mm : Option String) (mi : Option Int) (cf : Bool) (ans : String)
    (cOm : String → Except String Bool) (aOm : String → Except String Unit)
    (w0 : List String) (e : PyError)
    (h : (stage1_collect_responses members u cO r1 dO).outcome = .error e) :
    run_full_council members chairman q u cO r1 dO r2 r3 mm mi cf ans cOm aOm w0 =
      { result := .error e,
        worktrees := (if u then [] else w0) ++
          (stage1_collect_responses members u cO r1 dO).created.map Prod.snd,
        gitTrace := [] } := by
  simp only [run_full_council, h]

theorem run_full_council_zero_responses (members : List Member) (chairman : Member)
    (q : String) (u : Bool) (cO : Nat → Bool) (r1 : List (Option Response))
    (dO : Nat → Option String) (r2 : List (Option Response)) (r3 : Option Response)
    (mm : Option String) (mi : Option Int) (cf : Bool) (ans : String)
    (cOm : String → Except String Bool) (aOm : String → Except String Unit)
    (w0 : List String)
    (h : (stage1_collect_responses members u cO r1 dO).outcome = .ok []) :
    run_full_council members chairman q u cO r1 dO r2 r3 mm mi cf ans cOm aOm w0 =
      { result := .ok { error := some "No responses received from council members",
                        stage1 := [], stage2 := [], stage3 := none },
        worktrees := (if u then [] else w0) ++
          (stage1_collect_responses members u cO r1 dO).created.map Prod.snd,
        gitTrace := [] } := by
  simp only [run_full_council, h, List.isEmpty_nil, if_true]

theorem run_full_council_ok_stage1 (members : List Member) (chairman : Member)
    (q : String) (u : Bool) (cO : Nat → Bool) (r1 : List (Option Response))
    (dO : Nat → Option String) (r2 : List (Option Response)) (r3 : Option Response)
    (mm : Option String) (mi : Option Int) (cf : Bool) (ans : String)
    (cOm : String → Except String Bool) (aOm : String → Except String Unit)
    (w0 : List String) (results : List Stage1Result)
    (h : (stage1_collect_responses members u cO r1 dO).outcome = .ok results)
    (hne : results ≠ []) :
    ∃ r, (run_full_council members chairman q u cO r1 dO r2 r3 mm mi cf ans
        cOm aOm w0).result = .ok r ∧ r.stage1 = results ∧ r.error = none := by
  simp only [run_full_council, h]
  rw [if_neg (by simpa [List.isEmpty_iff] using hne)]
  exact ⟨_, rfl, rfl, rfl⟩

theorem run_full_council_cleanup (members : List Member) (chairman : Member)
    (q : String) (cO : Nat → Bool) (r1 : List (Option Response))
    (dO : Nat → Option String) (r2 : List (Option Response)) (r3 : Option Response)
    (mm : Option String) (mi : Option Int) (cf : Bool) (ans : String)
    (cOm : String → Except String Bool) (aOm : String → Except String Unit)
    (w0 : List String) (results : List Stage1Result)
    (h : (stage1_collect_responses members true cO r1 dO).outcome = .ok results)
    (hne : results ≠ []) :
    (run_full_council members chairman q true cO r1 dO r2 r3 mm mi cf ans cOm aOm w0).worktrees =
      [] := by
  simp only [run_full_council, h]
  rw [if_neg (by simpa [List.isEmpty_iff] using hne)]
  simp

/-! ### Merge decision lemmas -/

theorem mem_membersWithDiffs {s1 : List Stage1Result} {r : Stage1Result}
    (h : r ∈ membersWithDiffs s1) :
    r ∈ s1 ∧ ∃ mid, r.member_id = some mid ∧ mid ≠ "" := by
  unfold membersWithDiffs at h
  obtain ⟨hmem, hcond⟩ := List.mem_filter.mp h
  refine ⟨hmem, ?_⟩
  simp only [Bool.and_eq_true] at hcond
  have hm : truthy r.member_id = true := hcond.2
  cases hmid : r.member_id with
  | none => rw [hmid] at hm; simp [truthy] at hm
  | some s =>
    rw [hmid] at hm
    refine ⟨s, rfl, ?_⟩
    simpa [truthy] using hm

theorem walkRanking_eq_nil_of (mwd : List Stage1Result) (ltm : List (String × String)) :
    ∀ (l : List (String × ℚ)),
      (∀ p ∈ l, ∀ r ∈ mwd, ¬ (ltm.lookup p.1 = some r.model)) →
      walkRanking mwd ltm l = [] := by
  intro l
  induction l with
  | nil => intro _; rfl
  | cons p l ih =>
    intro h
    obtain ⟨label, sc⟩ := p
    simp only [walkRanking]
    have hfilter : mwd.filter (fun r => ltm.lookup label = some r.model) = [] := by
      rw [List.filter_eq_nil_iff]
      intro r hr
      simpa using h (label, sc) (List.mem_cons_self _ _) r hr
    rw [hfilter]
    simp only [List.isEmpty_nil, if_true]
    exact ih (fun p hp => h p (List.mem_cons_of_mem _ hp))

theorem walkRanking_head (mwd : List Stage1Result) (ltm : List (String × String)) :
    ∀ (l : List (String × ℚ)) (t : Stage1Result) (ts : List Stage1Result),
      walkRanking mwd ltm l = t :: ts →
      ∃ p ∈ l, ltm.lookup p.1 = some t.model ∧
        (mwd.filter (fun r => r.model = t.model)).head? = some t := by
  intro l
  induction l with
  | nil => intro t ts h; exact absurd h (by simp [walkRanking])
  | cons p l ih =>
    intro t ts h
    obtain ⟨label, sc⟩ := p
    simp only [walkRanking] at h
    by_cases hf : (mwd.filter (fun r => ltm.lookup label = some r.model)).isEmpty = true
    · rw [if_pos hf] at h
      rcases ih t ts h with ⟨p', hp', hl, hh⟩
      exact ⟨p', List.mem_cons_of_mem _ hp', hl, hh⟩
    · rw [if_neg hf] at h
      have ht : t ∈ mwd.filter (fun r => ltm.lookup label = some r.model) := by
        rw [h]; exact List.mem_cons_self _ _
      have hlook : ltm.lookup label = some t.model := by
        simpa using (List.mem_filter.mp ht).2
      refine ⟨(label, sc), List.mem_cons_self _ _, hlook, ?_⟩
      have hcong : mwd.filter (fun r => r.model = t.model) =
          mwd.filter (fun r => ltm.lookup label = some r.model) := by
        apply List.filter_congr
        intro r _
        simp [hlook, eq_comm]
      rw [hcong, h]
      rfl

theorem selectTarget_error_status (mwd : List Stage1Result)
    (agg : List (String × ℚ)) (ltm : List (String × String)) (mode : String)
    (mi : Option Int) (res : MergeResult)
    (h : selectTarget mwd agg ltm mode mi = .error res) : res.status = .error := by
  simp only [selectTarget] at h
  repeat' split at h
  all_goals
    first
      | exact Except.noConfusion h
      | (injection h with h'; subst h'; rfl)

/-- Unfolding of the auto branch of the selection chain on an empty
aggregate (the string-literal mode tests reduce definitionally). -/
theorem selectTarget_auto_nil (mwd : List Stage1Result)
    (ltm : List (String × String)) (mi : Option Int) :
    selectTarget mwd [] ltm "auto" mi =
      .error { status := .error, message := some "No rankings available" } := rfl

/-- Unfolding of the auto branch of the selection chain on a non-empty
aggregate. -/
theorem selectTarget_auto_cons (mwd : List Stage1Result)
    (ltm : List (String × String)) (mi : Option Int) (top_label : String)
    (top_q : ℚ) (restRanks : List (String × ℚ)) :
    selectTarget mwd ((top_label, top_q) :: restRanks) ltm "auto" mi =
      (match ltm.lookup top_label with
      | none =>
        .error { status := .error,
                 message := some ("Could not find model for " ++ top_label) }
      | some top_model =>
        if top_model = "" then
          .error { status := .error,
                   message := some ("Could not find model for " ++ top_label) }
        else
          match (if (mwd.filter (fun r => r.model = top_model)).isEmpty then
              walkRanking mwd ltm restRanks
            else mwd.filter (fun r => r.model = top_model)) with
          | [] =>
            .error { status := .error,
                     message := some "No ranked member has code changes" }
          | t :: _ => .ok t) := rfl

/-- Unfolding of the manual branch when no index was given. -/
theorem selectTarget_manual_none (mwd : List Stage1Result)
    (agg : List (String × ℚ)) (ltm : List (String × String)) :
    selectTarget mwd agg ltm "manual" none =
      .error { status := .error,
               message := some "No member index specified for manual merge" } := rfl

/-- Unfolding of the manual branch on a 1-based index. -/
theorem selectTarget_manual_some (mwd : List Stage1Result)
    (agg : List (String × ℚ)) (ltm : List (String × String)) (idx : Int) :
    selectTarget mwd agg ltm "manual" (some idx) =
      (match mwd.filter (fun r => (r.member_index : Int) = idx - 1) with
      | [] =>
        .error { status := .error,
                 message := some ("Member " ++ toString idx ++ " not found or has no changes") }
      | t :: _ => .ok t) := rfl

theorem selectTarget_auto_ok (mwd : List Stage1Result) (agg : List (String × ℚ))
    (ltm : List (String × String)) (mi : Option Int) (t : Stage1Result)
    (h : selectTarget mwd agg ltm "auto" mi = .ok t) :
    ∃ label q, (label, q) ∈ agg ∧ ltm.lookup label = some t.model ∧
      (mwd.filter (fun r => r.model = t.model)).head? = some t := by
  cases agg with
  | nil => rw [selectTarget_auto_nil] at h; exact Except.noConfusion h
  | cons top rest =>
    obtain ⟨top_label, top_q⟩ := top
    rw [selectTarget_auto_cons] at h
    cases hlook : ltm.lookup top_label with
    | none =>
      simp only [hlook] at h
      exact Except.noConfusion h
    | some m =>
      simp only [hlook] at h
      by_cases hm : m = ""
      · rw [if_pos hm] at h; exact Except.noConfusion h
      · rw [if_neg hm] at h
        by_cases hfe : (mwd.filter (fun r => r.model = m)).isEmpty = true
        · rw [if_pos hfe] at h
          cases hwalk : walkRanking mwd ltm rest with
          | nil =>
            simp only [hwalk] at h
            exact Except.noConfusion h
          | cons t' ts =>
            simp only [hwalk] at h
            injection h with h'
            rw [h'] at hwalk
            rcases walkRanking_head mwd ltm rest t ts hwalk with ⟨p', hp', hl, hh⟩
            exact ⟨p'.1, p'.2, List.mem_cons_of_mem _ (by simpa using hp'), hl, hh⟩
        · rw [if_neg hfe] at h
          cases hfilter : mwd.filter (fun r => r.model = m) with
          | nil => rw [hfilter] at hfe; exact absurd rfl hfe
          | cons t' ts =>
            simp only [hfilter] at h
            injection h with h'
            rw [h'] at hfilter
            have ht : t ∈ mwd.filter (fun r => r.model = m) := by
              rw [hfilter]; exact List.mem_cons_self _ _
            have htm : t.model = m := by simpa using (List.mem_filter.mp ht).2
            refine ⟨top_label, top_q, List.mem_cons_self _ _, ?_, ?_⟩
            · rw [hlook, htm]
            · simp only [htm]
              rw [hfilter]
              rfl

theorem selectTarget_auto_top_unresolved (mwd : List Stage1Result)
    (ltm : List (String × String)) (mi : Option Int) (top_label : String)
    (top_q : ℚ) (rest : List (String × ℚ))
    (hlook : ltm.lookup top_label = none) :
    selectTarget mwd ((top_label, top_q) :: rest) ltm "auto" mi =
      .error { status := .error,
               message := some ("Could not find model for " ++ top_label) } := by
  rw [selectTarget_auto_cons, hlook]

theorem selectTarget_auto_no_match (mwd : List Stage1Result)
    (agg : List (String × ℚ)) (ltm : List (String × String)) (mi : Option Int)
    (h : ∀ p ∈ agg, ∀ r ∈ mwd, ¬ (ltm.lookup p.1 = some r.model)) :
    ∃ res, selectTarget mwd agg ltm "auto" mi = .error res ∧ res.status = .error := by
  cases hsel : selectTarget mwd agg ltm "auto" mi with
  | error res => exact ⟨res, rfl, selectTarget_error_status _ _ _ _ _ _ hsel⟩
  | ok t =>
    rcases selectTarget_auto_ok mwd agg ltm mi t hsel with ⟨label, q, hmem, hlook, hh⟩
    cases hfilter : mwd.filter (fun r => r.model = t.model) with
    | nil => rw [hfilter] at hh; exact Option.noConfusion hh
    | cons t' ts =>
      have ht' : t' ∈ mwd.filter (fun r => r.model = t.model) := by
        rw [hfilter]; exact List.mem_cons_self _ _
      obtain ⟨ht'mem, ht'model⟩ := List.mem_filter.mp ht'
      have ht'm : t'.model = t.model := by simpa using ht'model
      exact absurd (ht'm ▸ hlook) (h (label, q) hmem t' ht'mem)

theorem handle_merge_no_diffs (s1 : List Stage1Result) (agg : List (String × ℚ))
    (ltm : List (String × String)) (mode : String) (mi : Option Int) (cf : Bool)
    (ans : String) (cOm : String → Except String Bool)
    (aOm : String → Except String Unit)
    (h : membersWithDiffs s1 = []) :
    handle_merge s1 agg ltm mode mi cf ans cOm aOm =
      ({ status := .no_changes, message := some "No code changes to merge" }, []) := by
  simp [handle_merge, h]

theorem handle_merge_select_error (s1 : List Stage1Result) (agg : List (String × ℚ))
    (ltm : List (String × String)) (mode : String) (mi : Option Int) (cf : Bool)
    (ans : String) (cOm : String → Except String Bool)
    (aOm : String → Except String Unit) (res : MergeResult)
    (h1 : membersWithDiffs s1 ≠ []) (h2 : mode ≠ "dry-run")
    (h3 : selectTarget (membersWithDiffs s1) agg ltm mode mi = .error res) :
    handle_merge s1 agg ltm mode mi cf ans cOm aOm = (res, []) := by
  simp only [handle_merge]
  rw [if_neg (by simpa [List.isEmpty_iff] using h1), if_neg h2, h3]

theorem handle_merge_select_ok (s1 : List Stage1Result) (agg : List (String × ℚ))
    (ltm : List (String × String)) (mode : String) (mi : Option Int) (cf : Bool)
    (ans : String) (cOm : String → Except String Bool)
    (aOm : String → Except String Unit) (t : Stage1Result)
    (h1 : membersWithDiffs s1 ≠ []) (h2 : mode ≠ "dry-run")
    (h3 : selectTarget (membersWithDiffs s1) agg ltm mode mi = .ok t) :
    handle_merge s1 agg ltm mode mi cf ans cOm aOm =
      finalizeMerge t cf ans cOm aOm := by
  simp only [handle_merge]
  rw [if_neg (by simpa [List.isEmpty_iff] using h1), if_neg h2, h3]

/-- No execution of the merge decision ever performs an unstaged apply: the
unstaged integration path of the workspace manager is unreachable from the
orchestrator's merge handler. -/
theorem handle_merge_no_unstaged_apply :
    ∀ (s1 : List Stage1Result) (agg : List (String × ℚ))
      (ltm : List (String × String)) (mode : String) (mi : Option Int)
      (cf : Bool) (ans : String) (cOm : String → Except String Bool)
      (aOm : String → Except String Unit) (m : String),
      GitAction.applyUnstaged m ∉ (handle_merge s1 agg ltm mode mi cf ans cOm aOm).2 := by
  intro s1 agg ltm mode mi cf ans cOm aOm m
  simp only [handle_merge, finalizeMerge]
  repeat' split
  all_goals simp

/-! ### Finalization and concrete evaluations -/

theorem finalizeMerge_all_ok (t : Stage1Result) (ans : String) (mid : String)
    (hmid : t.member_id = some mid) :
    finalizeMerge t false ans commitAllOk applyAllOk =
      ({ status := .merged, member := some t.model, member_id := some mid },
       [.commitWorktree mid ("Council proposal from " ++ t.model),
        .applyToMain mid "merge"]) := by
  simp [finalizeMerge, commitAllOk, applyAllOk, hmid]

theorem calculate_stage2Ex :
    calculate_aggregate_rankings stage2Ex [] =
      [("A", 5/2), ("B", 5/2), ("C", 1)] := by
  have h1 : rankScores stage2Ex = [("A", [3, 2]), ("B", [2, 3]), ("C", [1, 1])] := by
    simp [rankScores, stage2Ex, insertScore, List.enum, List.enumFrom]
    norm_num
  have h2 : avgScores [("A", [3, 2]), ("B", [2, 3]), ("C", [1, 1])] =
      [("A", 5/2), ("B", 5/2), ("C", 1)] := by
    simp [avgScores]
    norm_num
  unfold calculate_aggregate_rankings
  rw [h1, h2]
  norm_num [sortByScoreDesc, List.foldr, insertByScoreDesc]

theorem calculate_stage2Bogus :
    calculate_aggregate_rankings stage2Bogus [("Response A", "m1")] =
      [("Proposal X", 2), ("Response A", 1)] := by
  have h1 : rankScores stage2Bogus = [("Proposal X", [2]), ("Response A", [1])] := by
    simp [rankScores, stage2Bogus, insertScore, List.enum, List.enumFrom]
    try norm_num
  have h2 : avgScores [("Proposal X", [2]), ("Response A", [1])] =
      [("Proposal X", 2), ("Response A", 1)] := by
    simp [avgScores]
    try norm_num
  unfold calculate_aggregate_rankings
  rw [h1, h2]
  norm_num [sortByScoreDesc, List.foldr, insertByScoreDesc]

theorem head_filter_mem {l : List Stage1Result} {p : Stage1Result → Bool}
    {t : Stage1Result} (h : (l.filter p).head? = some t) : t ∈ l.filter p := by
  cases hf : l.filter p with
  | nil => rw [hf] at h; exact Option.noConfusion h
  | cons a s =>
    rw [hf] at h
    injection h with h'
    rw [h']
    exact List.mem_cons_self _ _

/-! ## Claim theorems -/

/-- C2 (confirmed): for every set of per-rater parsed sequences, the label
at 1-based position p of a rater's sequence of length k scores k − p + 1
(`scoresFor` collects exactly those scores per label), each label's
aggregate score is the arithmetic mean of the scores it received, labels
mentioned by no rater are excluded, the result is sorted descending by mean
score, and the parsed rankings [[A,B,C],[B,A,C]] yield A = 2.5, B = 2.5,
C = 1. -/
theorem c2_aggregator_contract :
    (∀ (rs : List Stage2Result) (ltm : List (String × String))
       (label : String) (q : ℚ),
      ((label, q) ∈ calculate_aggregate_rankings rs ltm ↔
        label ∈ mentionedLabels rs ∧
          q = (scoresFor rs label).sum / (scoresFor rs label).length)) ∧
    (∀ (rs : List Stage2Result) (ltm : List (String × String)),
      List.Pairwise (fun a b : String × ℚ => b.2 ≤ a.2)
        (calculate_aggregate_rankings rs ltm)) ∧
    calculate_aggregate_rankings stage2Ex [] =
      [("A", 5/2), ("B", 5/2), ("C", 1)] :=
  ⟨mem_calculate_aggregate_iff,
   fun _ _ => pairwise_ge_sortByScoreDesc _,
   calculate_stage2Ex⟩

/-- C3 (confirmed): labels with equal aggregate mean scores appear in the
aggregate ranking in order of their first appearance across the full flat
sequence of per-rater parsed rankings (raters in input order, positions in
order); the aggregate is a function of its input, hence deterministic. -/
theorem c3_tie_order_first_appearance :
    ∀ (rs : List Stage2Result) (ltm : List (String × String)) (i j : Nat)
      (p q : String × ℚ), i < j →
      (calculate_aggregate_rankings rs ltm)[i]? = some p →
      (calculate_aggregate_rankings rs ltm)[j]? = some q →
      p.2 = q.2 →
      (mentionedLabels rs).indexOf p.1 < (mentionedLabels rs).indexOf q.1 := by
  intro rs ltm i j p q hij hp hq hpq
  have hpw := pairwise_tie_order_calculate rs ltm
  rw [List.pairwise_iff_getElem] at hpw
  rcases List.getElem?_eq_some.mp hp with ⟨hi, hpi⟩
  rcases List.getElem?_eq_some.mp hq with ⟨hj, hqj⟩
  have h := hpw i j hi hj hij
  rw [hpi, hqj] at h
  exact h hpq

/-- C3 witness: in the spec example the tied labels A and B appear with A
first, matching A's earlier first appearance in the flattened rankings. -/
theorem c3_tie_order_first_appearance_witness :
    (mentionedLabels stage2Ex).indexOf "A" < (mentionedLabels stage2Ex).indexOf "B" :=
  c3_tie_order_first_appearance stage2Ex [] 0 1 ("A", 5/2) ("B", 5/2)
    (by norm_num) (by rw [calculate_stage2Ex]; rfl) (by rw [calculate_stage2Ex]; rfl) rfl

/-- C10 (confirmed): the aggregator never consults the label-to-model
mapping (its output is the same for any two mappings); every token that
appears in some rater's parsed sequence — and only those — appears in the
aggregate, and a token corresponding to no Stage-1 result, such as
"Proposal X" when labels were issued as "Response …", can rank first. -/
theorem c10_aggregator_ignores_mapping :
    (∀ (rs : List Stage2Result) (m m' : List (String × String)),
      calculate_aggregate_rankings rs m = calculate_aggregate_rankings rs m') ∧
    (∀ (rs : List Stage2Result) (m : List (String × String)) (label : String),
      label ∈ (calculate_aggregate_rankings rs m).map Prod.fst ↔
        label ∈ mentionedLabels rs) ∧
    calculate_aggregate_rankings stage2Bogus [("Response A", "m1")] =
      [("Proposal X", 2), ("Response A", 1)] := by
  refine ⟨fun _ _ _ => rfl, ?_, calculate_stage2Bogus⟩
  intro rs m label
  constructor
  · intro h
    rcases List.mem_map.mp h with ⟨e, he, rfl⟩
    exact ((mem_calculate_aggregate_iff rs m e.1 e.2).mp (by simpa using he)).1
  · intro h
    exact List.mem_map.mpr
      ⟨(label, (scoresFor rs label).sum / (scoresFor rs label).length),
       (mem_calculate_aggregate_iff rs m label _).mpr ⟨h, rfl⟩, rfl⟩

/-- C4 counterexample: the claim reads "scans everything after the marker",
but the source takes `split("FINAL RANKING:")[1]`, i.e. only the segment up
to the NEXT occurrence of the marker.  On a reply containing the marker
twice the source parser stops at the second marker, while the claimed
reading also collects the item after it. -/
theorem c4_parse_counterexample :
    parseRankingFromText twoMarkerText = ["Response A"] ∧
    parseRankingClaimed twoMarkerText = ["Response A", "Response B"] ∧
    parseRankingFromText twoMarkerText ≠ parseRankingClaimed twoMarkerText := by
  refine ⟨by decide, by decide, ?_⟩
  intro h
  rw [show parseRankingFromText twoMarkerText = ["Response A"] from by decide,
    show parseRankingClaimed twoMarkerText = ["Response A", "Response B"] from by decide] at h
  exact absurd h (by decide)

/-- C4 (amended): the parser returns the empty sequence when the literal
marker "FINAL RANKING:" is absent; otherwise it scans the segment after the
FIRST marker up to the next occurrence of the marker (everything after the
marker when it occurs once) and returns, in order, the
"(Response|Proposal) <whitespace> <uppercase letter>" token of every match
of the numbered-item pattern; the spec's single-marker example parses to
["Response B", "Response A"], and the two-marker reply parses to
["Response A"] only. -/
theorem c4_parse_marker_amended :
    (∀ s : String, containsSub rankingMarker s.toList = false →
      parseRankingFromText s = []) ∧
    (∀ s t : String, t ∈ parseRankingFromText s →
      ∃ kw ws c, t = String.mk (kw ++ ws ++ [c]) ∧
        (kw = "Response".toList ∨ kw = "Proposal".toList) ∧
        ws ≠ [] ∧ (∀ x ∈ ws, isSpaceChar x) ∧ isUpperChar c) ∧
    parseRankingFromText "blah\nFINAL RANKING:\n1. Response B\n2. Response A\n" =
      ["Response B", "Response A"] ∧
    parseRankingFromText twoMarkerText = ["Response A"] :=
  ⟨parseRankingFromText_of_no_marker, parseRankingFromText_shape,
   by decide, by decide⟩

/-- C4 witness: a marker-free reply parses to the empty sequence. -/
theorem c4_parse_marker_amended_witness :
    containsSub rankingMarker "no ranking in this reply".toList = false ∧
    parseRankingFromText "no ranking in this reply" = [] :=
  ⟨by decide, c4_parse_marker_amended.1 "no ranking in this reply" (by decide)⟩

/-- C1 counterexample: two members share the model name "m" and both have
diffs; the top-ranked label "Response B" belongs, by position, to the
second member (workspace member_1_m), but auto-merge resolves the label to
the model NAME and takes the first diff-bearing entry with that name, so it
merges the first member's workspace member_0_m — the selection does not
distinguish duplicate model names by position. -/
theorem c1_auto_merge_counterexample :
    (handle_merge [s1dup0, s1dup1] [("Response B", 2), ("Response A", 1)]
        (label_to_model [s1dup0, s1dup1]) "auto" none false ""
        commitAllOk applyAllOk).1 =
      { status := .merged, member := some "m", member_id := some "member_0_m" } ∧
    label_to_model [s1dup0, s1dup1] = [("Response A", "m"), ("Response B", "m")] ∧
    s1dup1.member_id = some "member_1_m" ∧
    (some "member_0_m" : Option String) ≠ some "member_1_m" := by
  refine ⟨by decide, by decide, by decide, ?_⟩
  intro h
  injection h with h'
  exact absurd h' (by decide)

/-- C1 (amended): auto-merge resolves the top label through the
label-to-model-NAME mapping; a merged decision's target is the first
diff-bearing Stage-1 entry whose model name equals the name some ranked
label resolves to (so duplicate model names are not distinguished by
position); when the top label is absent from the mapping the decision is an
error even if lower-ranked members have diffs; and when no ranked label
resolves to the model name of any diff-bearing member the decision is an
error. -/
theorem c1_auto_merge_selection :
    (∀ (s1 : List Stage1Result) (agg : List (String × ℚ))
       (ltm : List (String × String)) (mi : Option Int) (ans : String),
      (handle_merge s1 agg ltm "auto" mi false ans commitAllOk applyAllOk).1.status =
          .merged →
        ∃ t label q, (label, q) ∈ agg ∧ ltm.lookup label = some t.model ∧
          ((membersWithDiffs s1).filter (fun r => r.model = t.model)).head? = some t ∧
          (handle_merge s1 agg ltm "auto" mi false ans commitAllOk applyAllOk).1.member_id =
            t.member_id ∧
          (handle_merge s1 agg ltm "auto" mi false ans commitAllOk applyAllOk).1.member =
            some t.model) ∧
    (∀ (s1 : List Stage1Result) (ltm : List (String × String)) (mi : Option Int)
       (ans : String) (top_label : String) (top_q : ℚ) (rest : List (String × ℚ)),
      membersWithDiffs s1 ≠ [] → ltm.lookup top_label = none →
      (handle_merge s1 ((top_label, top_q) :: rest) ltm "auto" mi false ans
          commitAllOk applyAllOk).1 =
        { status := .error,
          message := some ("Could not find model for " ++ top_label) }) ∧
    (∀ (s1 : List Stage1Result) (agg : List (String × ℚ))
       (ltm : List (String × String)) (mi : Option Int) (ans : String),
      membersWithDiffs s1 ≠ [] →
      (∀ p ∈ agg, ∀ r ∈ membersWithDiffs s1, ¬ (ltm.lookup p.1 = some r.model)) →
      (handle_merge s1 agg ltm "auto" mi false ans commitAllOk applyAllOk).1.status =
        .error) := by
  refine ⟨?_, ?_, ?_⟩
  · intro s1 agg ltm mi ans hmerged
    by_cases hmwd : membersWithDiffs s1 = []
    · rw [handle_merge_no_diffs _ _ _ _ _ _ _ _ _ hmwd] at hmerged
      exact MergeStatus.noConfusion hmerged
    · cases hsel : selectTarget (membersWithDiffs s1) agg ltm "auto" mi with
      | error res =>
        rw [handle_merge_select_error _ _ _ _ _ _ _ _ _ res hmwd (by decide) hsel]
          at hmerged
        have hst := selectTarget_error_status _ _ _ _ _ res hsel
        rw [hst] at hmerged
        exact MergeStatus.noConfusion hmerged
      | ok t =>
        have hout := handle_merge_select_ok s1 agg ltm "auto" mi false ans
          commitAllOk applyAllOk t hmwd (by decide) hsel
        rcases selectTarget_auto_ok _ _ _ _ t hsel with ⟨label, q, hlq, hlook, hh⟩
        have htmem : t ∈ membersWithDiffs s1 := (List.mem_filter.mp (head_filter_mem hh)).1
        rcases (mem_membersWithDiffs htmem).2 with ⟨mid, hmid, -⟩
        have hfin := finalizeMerge_all_ok t ans mid hmid
        refine ⟨t, label, q, hlq, hlook, hh, ?_, ?_⟩
        · rw [hout, hfin, hmid]
        · rw [hout, hfin]
  · intro s1 ltm mi ans top_label top_q rest hmwd hlook
    rw [handle_merge_select_error _ _ _ _ _ _ _ _ _ _ hmwd (by decide)
      (selectTarget_auto_top_unresolved _ _ _ _ _ _ hlook)]
  · intro s1 agg ltm mi ans hmwd hnone
    rcases selectTarget_auto_no_match (membersWithDiffs s1) agg ltm mi hnone with
      ⟨res, hsel, hst⟩
    rw [handle_merge_select_error _ _ _ _ _ _ _ _ _ res hmwd (by decide) hsel]
    exact hst

/-- C1 witness: in code mode raters see "Proposal" labels while the mapping
holds "Response" keys, so a top label "Proposal A" resolves to no model and
auto-merge returns an error even though the diff-bearing member exists. -/
theorem c1_auto_merge_selection_witness :
    (handle_merge [s1dup0] [("Proposal A", (1 : ℚ))] [("Response A", "m")]
        "auto" none false "" commitAllOk applyAllOk).1 =
      { status := .error, message := some "Could not find model for Proposal A" } :=
  c1_auto_merge_selection.2.1 [s1dup0] [("Response A", "m")] none "" "Proposal A" 1 []
    (by decide) (by decide)

/-- C7 counterexample: in manual mode with a valid 1-based index naming a
member that produced no diff, while no member at all produced a diff, the
decision has status no_changes, not the error status the claim requires. -/
theorem c7_manual_merge_counterexample :
    (handle_merge [s1noDiff] [] [] "manual" (some 1) false ""
        commitAllOk applyAllOk).1 =
      { status := .no_changes, message := some "No code changes to merge" } ∧
    MergeStatus.no_changes ≠ MergeStatus.error := by
  exact ⟨by decide, fun h => MergeStatus.noConfusion h⟩

/-- C7 (amended): manual mode selects the diff-bearing Stage-1 entry whose
member index equals index − 1; when at least one member produced a diff, a
missing index, an out-of-range index, or an index whose member has no diff
yields an error-status result (not an exception); when no member at all
produced a diff the result has status no_changes instead. -/
theorem c7_manual_merge_selection :
    (∀ (s1 : List Stage1Result) (agg : List (String × ℚ))
       (ltm : List (String × String)) (mi : Option Int) (cf : Bool) (ans : String)
       (cOm : String → Except String Bool) (aOm : String → Except String Unit),
      membersWithDiffs s1 = [] →
      (handle_merge s1 agg ltm "manual" mi cf ans cOm aOm).1 =
        { status := .no_changes, message := some "No code changes to merge" }) ∧
    (∀ (s1 : List Stage1Result) (agg : List (String × ℚ))
       (ltm : List (String × String)) (cf : Bool) (ans : String)
       (cOm : String → Except String Bool) (aOm : String → Except String Unit),
      membersWithDiffs s1 ≠ [] →
      (handle_merge s1 agg ltm "manual" none cf ans cOm aOm).1 =
        { status := .error,
          message := some "No member index specified for manual merge" }) ∧
    (∀ (s1 : List Stage1Result) (agg : List (String × ℚ))
       (ltm : List (String × String)) (idx : Int) (cf : Bool) (ans : String)
       (cOm : String → Except String Bool) (aOm : String → Except String Unit),
      membersWithDiffs s1 ≠ [] →
      (membersWithDiffs s1).filter (fun r => (r.member_index : Int) = idx - 1) = [] →
      (handle_merge s1 agg ltm "manual" (some idx) cf ans cOm aOm).1 =
        { status := .error,
          message := some ("Member " ++ toString idx ++ " not found or has no changes") }) ∧
    (∀ (s1 : List Stage1Result) (agg : List (String × ℚ))
       (ltm : List (String × String)) (idx : Int) (ans : String) (t : Stage1Result),
      ((membersWithDiffs s1).filter (fun r => (r.member_index : Int) = idx - 1)).head? =
          some t →
      (handle_merge s1 agg ltm "manual" (some idx) false ans commitAllOk applyAllOk).1 =
        { status := .merged, member := some t.model, member_id := t.member_id }) := by
  refine ⟨?_, ?_, ?_, ?_⟩
  · intro s1 agg ltm mi cf ans cOm aOm hmwd
    rw [handle_merge_no_diffs _ _ _ _ _ _ _ _ _ hmwd]
  · intro s1 agg ltm cf ans cOm aOm hmwd
    rw [handle_merge_select_error _ _ _ _ _ _ _ _ _ _ hmwd (by decide)
      (selectTarget_manual_none _ _ _)]
  · intro s1 agg ltm idx cf ans cOm aOm hmwd hfilter
    have hsel := selectTarget_manual_some (membersWithDiffs s1) agg ltm idx
    rw [hfilter] at hsel
    rw [handle_merge_select_error _ _ _ _ _ _ _ _ _ _ hmwd (by decide) hsel]
  · intro s1 agg ltm idx ans t hhead
    have htfil : t ∈ (membersWithDiffs s1).filter
        (fun r => (r.member_index : Int) = idx - 1) := head_filter_mem hhead
    have htmem : t ∈ membersWithDiffs s1 := (List.mem_filter.mp htfil).1
    have hmwd : membersWithDiffs s1 ≠ [] := List.ne_nil_of_mem htmem
    cases hf : (membersWithDiffs s1).filter (fun r => (r.member_index : Int) = idx - 1) with
    | nil => rw [hf] at hhead; exact Option.noConfusion hhead
    | cons a s =>
      rw [hf] at hhead
      injection hhead with h'
      have hsel := selectTarget_manual_some (membersWithDiffs s1) agg ltm idx
      rw [hf] at hsel
      rw [h'] at hsel
      rcases (mem_membersWithDiffs htmem).2 with ⟨mid, hmid, -⟩
      rw [handle_merge_select_ok _ _ _ _ _ _ _ _ _ t hmwd (by decide) hsel,
        finalizeMerge_all_ok t ans mid hmid, hmid]

/-- C7 witness: with one diff-bearing member and no index given, manual
merge returns an error-status result. -/
theorem c7_manual_merge_selection_witness :
    (handle_merge [s1dup0] [] [] "manual" none false "" commitAllOk applyAllOk).1 =
      { status := .error,
        message := some "No member index specified for manual merge" } :=
  c7_manual_merge_selection.2.1 [s1dup0] [] [] false "" commitAllOk applyAllOk
    (by decide)

/-- C5 counterexample: in a worktrees session where the only member fails
to respond, the session returns the zero-responses error BEFORE the cleanup
step, so the workspace created in Stage 1 (member_0_m) survives session
end. -/
theorem c5_cleanup_counterexample :
    SessionOutcome.errorKey zeroRespondersSession =
      some "No responses received from council members" ∧
    zeroRespondersSession.worktrees = ["member_0_m"] ∧
    oneResponderSession.result =
      .error (.attributeError "_extract_and_write_code") ∧
    oneResponderSession.worktrees = ["member_0_m"] ∧
    oneResponderSession.worktrees ≠ [] := by
  refine ⟨rfl, by decide, rfl, by decide, ?_⟩
  intro h
  rw [show oneResponderSession.worktrees = ["member_0_m"] from by decide] at h
  exact List.noConfusion h

/-- C5 (amended): in a worktrees session the cleanup step empties the
workspace registry exactly on the runs that reach it, namely those that
return a result object whose error key is unset.  On the zero-responder
path the session returns its error object before the cleanup step, and
whenever some responding member with a created workspace returned
non-empty content, Stage 1 raises `AttributeError` at the undefined
`_extract_and_write_code` call and the session aborts before the cleanup
step; in both of those cases every workspace created in Stage 1 survives
the session. -/
theorem c5_cleanup_on_session_end :
    ∀ (members : List Member) (chairman : Member) (q : String) (cO : Nat → Bool)
      (r1 : List (Option Response)) (dO : Nat → Option String)
      (r2 : List (Option Response)) (r3 : Option Response)
      (mm : Option String) (mi : Option Int) (cf : Bool) (ans : String)
      (cOm : String → Except String Bool) (aOm : String → Except String Unit)
      (w0 : List String),
      (SessionOutcome.errorKey (run_full_council members chairman q true cO r1 dO
          r2 r3 mm mi cf ans cOm aOm w0) = none →
        SessionOutcome.raised (run_full_council members chairman q true cO r1 dO
          r2 r3 mm mi cf ans cOm aOm w0) = false →
        (run_full_council members chairman q true cO r1 dO r2 r3 mm mi cf ans
          cOm aOm w0).worktrees = []) ∧
      (SessionOutcome.errorKey (run_full_council members chairman q true cO r1 dO
          r2 r3 mm mi cf ans cOm aOm w0) ≠ none →
        (run_full_council members chairman q true cO r1 dO r2 r3 mm mi cf ans
          cOm aOm w0).worktrees =
          (stage1_collect_responses members true cO r1 dO).created.map Prod.snd) ∧
      (SessionOutcome.raised (run_full_council members chairman q true cO r1 dO
          r2 r3 mm mi cf ans cOm aOm w0) = true →
        (run_full_council members chairman q true cO r1 dO r2 r3 mm mi cf ans
          cOm aOm w0).worktrees =
          (stage1_collect_responses members true cO r1 dO).created.map Prod.snd) := by
  intro members chairman q cO r1 dO r2 r3 mm mi cf ans cOm aOm w0
  cases ho : (stage1_collect_responses members true cO r1 dO).outcome with
  | error e =>
    have hrw := run_full_council_raised members chairman q true cO r1 dO r2 r3
      mm mi cf ans cOm aOm w0 e ho
    have hres : (run_full_council members chairman q true cO r1 dO r2 r3 mm mi
        cf ans cOm aOm w0).result = .error e := by rw [hrw]
    refine ⟨?_, ?_, ?_⟩
    · intro _ hraised
      rw [raised_eq_true_of_error hres] at hraised
      exact Bool.noConfusion hraised
    · intro hek
      exact absurd (errorKey_of_error hres) hek
    · intro _
      rw [hrw]
      simp
  | ok results =>
    by_cases hnil : results = []
    · subst hnil
      have hz := run_full_council_zero_responses members chairman q true cO r1 dO
        r2 r3 mm mi cf ans cOm aOm w0 ho
      have hres : (run_full_council members chairman q true cO r1 dO r2 r3 mm mi
          cf ans cOm aOm w0).result =
          .ok { error := some "No responses received from council members",
                stage1 := [], stage2 := [], stage3 := none } := by rw [hz]
      refine ⟨?_, ?_, ?_⟩
      · intro hek _
        rw [errorKey_of_ok hres] at hek
        exact Option.noConfusion hek
      · intro _
        rw [hz]
        simp
      · intro hraised
        rw [raised_eq_false_of_ok hres] at hraised
        exact Bool.noConfusion hraised
    · obtain ⟨r, hres, hstage1, herr⟩ := run_full_council_ok_stage1 members chairman
        q true cO r1 dO r2 r3 mm mi cf ans cOm aOm w0 results ho hnil
      refine ⟨?_, ?_, ?_⟩
      · intro _ _
        exact run_full_council_cleanup members chairman q cO r1 dO r2 r3 mm mi cf
          ans cOm aOm w0 results ho hnil
      · intro hek
        rw [errorKey_of_ok hres, herr] at hek
        exact absurd rfl hek
      · intro hraised
        rw [raised_eq_false_of_ok hres] at hraised
        exact Bool.noConfusion hraised

/-- C5 witness: a worktrees session whose single member responds with empty
content completes and ends with an empty workspace registry. -/
theorem c5_cleanup_on_session_end_witness :
    emptyContentSession.worktrees = [] :=
  (c5_cleanup_on_session_end [memberM] chairmanC "q" (fun _ => true)
    [some ⟨""⟩] (fun _ => none) [] none none none false ""
    commitAllOk applyAllOk []).1 rfl rfl

/-- C6 (code evaluation): two parts of the claim hold — any returned result
object has at most `members.length` Stage-1 entries, and when Stage 1
yields zero responses the session returns the error object (error message
set, empty stage1/stage2, absent stage3) without raising.  But the clause
that no other stage failure makes the session fail is the code bug recorded
for this claim: the session raises `AttributeError` — returning no result
object at all — exactly when some responding member with a created
workspace returned non-empty content, because `stage1_collect_responses`
reaches the undefined method `_extract_and_write_code` there. -/
theorem c6_session_error_contract :
    ∀ (members : List Member) (chairman : Member) (q : String) (u : Bool)
      (cO : Nat → Bool) (r1 : List (Option Response)) (dO : Nat → Option String)
      (r2 : List (Option Response)) (r3 : Option Response)
      (mm : Option String) (mi : Option Int) (cf : Bool) (ans : String)
      (cOm : String → Except String Bool) (aOm : String → Except String Unit)
      (w0 : List String),
      (∀ r : SessionResult,
        (run_full_council members chairman q u cO r1 dO r2 r3 mm mi cf ans
            cOm aOm w0).result = .ok r →
          r.stage1.length ≤ members.length) ∧
      ((stage1_collect_responses members u cO r1 dO).outcome = .ok [] →
        (run_full_council members chairman q u cO r1 dO r2 r3 mm mi cf ans
            cOm aOm w0).result =
          .ok { error := some "No responses received from council members",
                stage1 := [], stage2 := [], stage3 := none }) ∧
      (SessionOutcome.raised (run_full_council members chairman q u cO r1 dO
          r2 r3 mm mi cf ans cOm aOm w0) = true ↔
        ∃ item ∈ query_members_parallel members r1,
          ((worktreePathsFor members u cO).lookup item.member_index).isSome ∧
            item.response.content ≠ "") := by
  intro members chairman q u cO r1 dO r2 r3 mm mi cf ans cOm aOm w0
  cases ho : (stage1_collect_responses members u cO r1 dO).outcome with
  | error e =>
    have hrw := run_full_council_raised members chairman q u cO r1 dO r2 r3
      mm mi cf ans cOm aOm w0 e ho
    have hres : (run_full_council members chairman q u cO r1 dO r2 r3 mm mi
        cf ans cOm aOm w0).result = .error e := by rw [hrw]
    have ho2 : stage1Loop (worktreePathsFor members u cO) dO
        (query_members_parallel members r1) = .error e := ho
    have hx := (stage1Loop_error_iff (worktreePathsFor members u cO) dO
      (query_members_parallel members r1) e).mp ho2
    refine ⟨?_, ?_, ?_⟩
    · intro r hr
      rw [hres] at hr
      exact Except.noConfusion hr
    · intro hzero
      exact Except.noConfusion hzero
    · constructor
      · intro _
        exact hx.2
      · intro _
        exact raised_eq_true_of_error hres
  | ok results =>
    have ho2 : stage1Loop (worktreePathsFor members u cO) dO
        (query_members_parallel members r1) = .ok results := ho
    by_cases hnil : results = []
    · subst hnil
      have hz := run_full_council_zero_responses members chairman q u cO r1 dO
        r2 r3 mm mi cf ans cOm aOm w0 ho
      have hres : (run_full_council members chairman q u cO r1 dO r2 r3 mm mi
          cf ans cOm aOm w0).result =
          .ok { error := some "No responses received from council members",
                stage1 := [], stage2 := [], stage3 := none } := by rw [hz]
      refine ⟨?_, ?_, ?_⟩
      · intro r hr
        rw [hres] at hr
        injection hr with hr
        rw [← hr]
        exact Nat.zero_le _
      · intro _
        exact hres
      · constructor
        · intro hraised
          rw [raised_eq_false_of_ok hres] at hraised
          exact Bool.noConfusion hraised
        · intro hoff
          obtain ⟨x, hmem, hx⟩ := hoff
          have : stage1Loop (worktreePathsFor members u cO) dO
              (query_members_parallel members r1) =
              .error (.attributeError "_extract_and_write_code") :=
            (stage1Loop_error_iff _ _ _ _).mpr ⟨rfl, x, hmem, hx⟩
          rw [ho2] at this
          exact Except.noConfusion this
    · obtain ⟨r, hres, hstage1, herr⟩ := run_full_council_ok_stage1 members chairman
        q u cO r1 dO r2 r3 mm mi cf ans cOm aOm w0 results ho hnil
      refine ⟨?_, ?_, ?_⟩
      · intro r2x hr
        rw [hres] at hr
        injection hr with hr
        rw [← hr, hstage1]
        exact stage1_length_le members u cO r1 dO results ho
      · intro hzero
        injection hzero with hzero
        exact absurd hzero hnil
      · constructor
        · intro hraised
          rw [raised_eq_false_of_ok hres] at hraised
          exact Bool.noConfusion hraised
        · intro hoff
          obtain ⟨x, hmem, hx⟩ := hoff
          have : stage1Loop (worktreePathsFor members u cO) dO
              (query_members_parallel members r1) =
              .error (.attributeError "_extract_and_write_code") :=
            (stage1Loop_error_iff _ _ _ _).mpr ⟨rfl, x, hmem, hx⟩
          rw [ho2] at this
          exact Except.noConfusion this

/-- C6 witness: the zero-responder session returns exactly the error result
object. -/
theorem c6_session_error_contract_witness :
    zeroRespondersSession.result =
      .ok { error := some "No responses received from council members",
            stage1 := [], stage2 := [], stage3 := none } :=
  (c6_session_error_contract [memberM] chairmanC "q" true (fun _ => true) [none]
    (fun _ => none) [] none none none false "" commitAllOk applyAllOk []).2.1
    rfl

/-- C9 (confirmed): the parallel fan-out result contains, in strictly
ascending member-index order, exactly one entry per member whose invocation
returned a response, each built from that member's record and response and
tagged with the member's original 0-based index; whenever Stage 1 returns a
result list, that list inherits exactly this index sequence. -/
theorem c9_parallel_result_ordering :
    (∀ (members : List Member) (responses : List (Option Response)),
      List.Pairwise (fun a b : QueryResult => a.member_index < b.member_index)
        (query_members_parallel members responses)) ∧
    (∀ (members : List Member) (responses : List (Option Response)) (e : QueryResult),
      e ∈ query_members_parallel members responses ↔
        ∃ m r, members[e.member_index]? = some m ∧
          responses[e.member_index]? = some (some r) ∧
          e = ⟨e.member_index, m.model, m.provider, m.full_name, r⟩) ∧
    (∀ (members : List Member) (use_worktrees : Bool) (createOk : Nat → Bool)
       (responses : List (Option Response)) (diffOutcome : Nat → Option String)
       (results : List Stage1Result),
      (stage1_collect_responses members use_worktrees createOk responses
          diffOutcome).outcome = .ok results →
        results.map (fun r => r.member_index) =
          (query_members_parallel members responses).map (fun q => q.member_index)) :=
  ⟨pairwise_member_index_query_members_parallel,
   mem_query_members_parallel_iff,
   stage1_member_index_map⟩

/-- C9 witness: a completing Stage-1 run over one responding member carries
the same index sequence as the fan-out result. -/
theorem c9_parallel_result_ordering_witness :
    ([{ model := "m", provider := "opencode", member_index := 0,
        response := "hello", member_id := none, worktree_path := none,
        diff := none }] : List Stage1Result).map (fun r => r.member_index) =
      (query_members_parallel [memberM] [some ⟨"hello"⟩]).map
        (fun q => q.member_index) :=
  c9_parallel_result_ordering.2.2 [memberM] false (fun _ => true)
    [some ⟨"hello"⟩] (fun _ => none)
    [{ model := "m", provider := "opencode", member_index := 0,
       response := "hello", member_id := none, worktree_path := none,
       diff := none }] rfl

/-- C8 (code evaluation): the worktree commit operation returns false, not
an exception, when git reports nothing to commit; a successful auto-merge
commits the target workspace and then integrates it via merge (and performs
no unstaged apply); and when the commit reports nothing to commit the
decision carries an error status after the commit attempt.  (The claim's
no_commit clause is the code bug recorded for this claim: `_handle_merge`
has no unstaged-apply path and the api layer passes `no_commit=` to a
`run_full_council` that does not accept it.) -/
theorem c8_commit_then_merge_path :
    commit_changes gitNothingToCommit true "Council proposal from m" = .ok false ∧
    handle_merge [s1dup0] [("Response A", (1 : ℚ))] [("Response A", "m")]
        "auto" none false "" commitAllOk applyAllOk =
      ({ status := .merged, member := some "m", member_id := some "member_0_m" },
       [.commitWorktree "member_0_m" "Council proposal from m",
        .applyToMain "member_0_m" "merge"]) ∧
    handle_merge [s1dup0] [("Response A", (1 : ℚ))] [("Response A", "m")]
        "auto" none false "" commitNothingToCommit applyAllOk =
      ({ status := .error, message := some "Nothing to commit" },
       [.commitWorktree "member_0_m" "Council proposal from m"]) :=
  ⟨rfl, by decide, by decide⟩

end Council

